import Mathlib

/-!
# Key Transparency: sequencer and monitor

A shallow embedding of `core/sequencer/sequencer.go`, `core/monitor/monitor.go`,
`impl/monitor/storage/storage.go` and `impl/monitor/storage/bftkvst/bftkvst.go`,
followed by the properties proved about them.

Conventions of the embedding:

* a Go byte slice is a list of naturals (`Bytes`); a nil slice and an empty
  slice are both `[]`, the code never tells them apart;
* a Go pointer that the code reads through nil-safe getters, or that it
  dereferences without a check although it may be nil, is an `Option`, and
  dereferencing `none` ends the enclosing function in a crash; the definitions
  say where a pointer is taken to be non-nil instead;
* a Go `map[K]V` is an association list without repeated keys (`GoMap`); the
  order in which `range` visits a map is unspecified in Go, so a statement
  about a slice built by ranging over a map is made for every permutation of
  the slice;
* `int64` values are integers and `uint64` values are naturals; conversions
  between them (`toUint64`, `toInt64`) and the arithmetic of `time.Duration`
  (`addDuration`, `Time.Sub`) are written out with their wrap-around and
  saturation;
* injected interfaces (the mutator, the map and log clients, the mutation
  queue, the verifier and the signer of the monitor, the BFTKV client) are
  parameters, over an explicit state of the services behind them.
-/

namespace KeyTransparency

/-! ## Basic data -/

/-- A Go byte slice. -/
abbrev Bytes := List Nat

/-- Errors surfaced by the embedded code. Go compares error values by
identity, and the packages `core/monitor/storage` and `impl/monitor/storage`
each declare their own `ErrAlreadyStored` and `ErrNotFound` with
`errors.New`: these are four distinct values, two by two with the same
message. Every other error is carried as its message. -/
inductive Error where
  | coreAlreadyStored
  | coreNotFound
  | implAlreadyStored
  | implNotFound
  | other (msg : String)
  deriving DecidableEq, Repr

/-- The text of an error (`err.Error()`). -/
def Error.message : Error → String
  | .coreAlreadyStored => "already stored epoch"
  | .coreNotFound => "data for epoch not found"
  | .implAlreadyStored => "already stored epoch"
  | .implNotFound => "data for epoch not found"
  | .other msg => msg

/-- The error built by `fmt.Errorf("<what>: %v", err)`. -/
def Error.wrap (what : String) (err : Error) : Error :=
  .other (what ++ ": " ++ err.message)

/-- The text that the verb `%v` prints for an `int64`: its decimal
notation. -/
def fmtInt (n : Int) : String := toString n

/-- The text that the verb `%v` prints for a byte slice: the decimal bytes,
separated by blanks, between square brackets. -/
def fmtBytes (b : List Nat) : String :=
  "[" ++ " ".intercalate (b.map toString) ++ "]"

/-- The key/value pair inside a signed mutation (`tpb.KeyValue`). -/
structure KeyValue where
  Key : Bytes
  Value : Bytes
  deriving DecidableEq, Repr

/-- A signed mutation (`tpb.SignedKV`). `KeyValue` is a pointer field. -/
structure SignedKV where
  KeyValue : Option KeyValue
  Signatures : List (String × Bytes)
  Previous : Bytes
  deriving DecidableEq, Repr

/-- A map leaf (`trillian.MapLeaf`). -/
structure MapLeaf where
  Index : Bytes
  LeafHash : Bytes
  LeafValue : Bytes
  ExtraData : Bytes
  deriving DecidableEq, Repr

/-- The nil-safe getter `(*SignedKV).GetKeyValue`. -/
def GetKeyValue (m : Option SignedKV) : Option KeyValue :=
  match m with
  | some kv => kv.KeyValue
  | none => none

/-- The nil-safe getter `(*KeyValue).GetKey`. -/
def GetKey (kv : Option KeyValue) : Bytes :=
  match kv with
  | some x => x.Key
  | none => []

/-! ## Go maps -/

/-- A Go map as an association list. -/
abbrev GoMap (K V : Type) := List (K × V)

namespace GoMap

variable {K V : Type} [DecidableEq K]

/-- The lookup `v, ok := m[k]`. -/
def get (k : K) : GoMap K V → Option V
  | [] => none
  | (k1, v1) :: rest => if k1 = k then some v1 else get k rest

/-- The assignment `m[k] = v`: overwrite the entry of `k` when there is one,
add an entry otherwise. -/
def set (k : K) (v : V) : GoMap K V → GoMap K V
  | [] => [(k, v)]
  | (k1, v1) :: rest => if k1 = k then (k, v) :: rest else (k1, v1) :: set k v rest

/-- The values of the map, in the order of the association list. -/
def values (m : GoMap K V) : List V := m.map Prod.snd

end GoMap

/-! ## The conflict resolver: `toArray` and `applyMutations` -/

/-- The first 32 bytes of `b`, zero padded when `b` is shorter:
`var i [32]byte; copy(i[:], b); return i`. -/
def toArray (b : Bytes) : Bytes :=
  b.take 32 ++ List.replicate (32 - b.length) 0

/-- The first loop of `applyMutations`: `leafMap[toArray(l.Index)] = l` for
each leaf in turn. `l.Index` dereferences `l`, so a nil leaf crashes
(`none`). -/
def leafMapLoop (leafMap : GoMap Bytes MapLeaf) :
    List (Option MapLeaf) → Option (GoMap Bytes MapLeaf)
  | [] => some leafMap
  | none :: _ => none
  | some l :: rest => leafMapLoop (GoMap.set (toArray l.Index) l leafMap) rest

/-- The body of the second loop of `applyMutations` for one mutation `m`:
look the old value up in `leafMap` (not in `retMap`), decode it, run the
mutator, and store the new leaf in `retMap`; a decoding error or a mutator
error leaves `retMap` as it is (`continue`). -/
def applyStep {Entry : Type}
    (Mutate : Option Entry → Option SignedKV → Except Error Bytes)
    (FromLeafValue : Bytes → Except Error (Option Entry))
    (leafMap : GoMap Bytes MapLeaf) (retMap : GoMap Bytes MapLeaf)
    (m : Option SignedKV) : GoMap Bytes MapLeaf :=
  let index := GetKey (GetKeyValue m)
  let decoded : Except Error (Option Entry) :=
    match GoMap.get (toArray index) leafMap with
    | some leaf => FromLeafValue leaf.LeafValue
    | none => .ok none
  match decoded with
  | .error _ => retMap
  | .ok oldValue =>
    match Mutate oldValue m with
    | .error _ => retMap
    | .ok newValue =>
      GoMap.set (toArray index)
        { Index := index, LeafHash := [], LeafValue := newValue, ExtraData := [] } retMap

/-- The second loop of `applyMutations`. -/
def mutationLoop {Entry : Type}
    (Mutate : Option Entry → Option SignedKV → Except Error Bytes)
    (FromLeafValue : Bytes → Except Error (Option Entry))
    (leafMap : GoMap Bytes MapLeaf) (retMap : GoMap Bytes MapLeaf) :
    List (Option SignedKV) → GoMap Bytes MapLeaf
  | [] => retMap
  | m :: rest =>
    mutationLoop Mutate FromLeafValue leafMap
      (applyStep Mutate FromLeafValue leafMap retMap m) rest

/-- The method `(*Sequencer).applyMutations`. The result is `none` when the
call crashes on a nil leaf, and otherwise the returned pair: the slice of
leaves to write and the error, which is always nil. The slice is built by
ranging over `retMap`; it is given here in the order of the association
list, any permutation of it is a possible result of the Go code. -/
def applyMutations {Entry : Type}
    (Mutate : Option Entry → Option SignedKV → Except Error Bytes)
    (FromLeafValue : Bytes → Except Error (Option Entry))
    (mutations : List (Option SignedKV)) (leaves : List (Option MapLeaf)) :
    Option (List MapLeaf × Option Error) :=
  match leafMapLoop [] leaves with
  | none => none
  | some leafMap =>
    let retMap := mutationLoop Mutate FromLeafValue leafMap [] mutations
    some (GoMap.values retMap, none)

/-! ### Vocabulary of the conflict-resolver properties -/

/-- The input leaf that holds the pre-batch value of the canonical key `k`:
the last leaf of the input whose index canonicalises to `k`. -/
def preBatchLeaf (leaves : List MapLeaf) (k : Bytes) : Option MapLeaf :=
  (leaves.filter fun l => toArray l.Index = k).getLast?

/-- The pre-batch value of the canonical key `k`: nil when `k` has no input
leaf, the decoded value of its leaf otherwise (decoding may fail). -/
def preBatchValue {Entry : Type} (FromLeafValue : Bytes → Except Error (Option Entry))
    (leaves : List MapLeaf) (k : Bytes) : Except Error (Option Entry) :=
  match preBatchLeaf leaves k with
  | some leaf => FromLeafValue leaf.LeafValue
  | none => .ok none

/-- The mutator is run on `m` with the pre-batch value of its key and accepts
it with new value `v`. -/
def AcceptedWith {Entry : Type}
    (Mutate : Option Entry → Option SignedKV → Except Error Bytes)
    (FromLeafValue : Bytes → Except Error (Option Entry))
    (leaves : List MapLeaf) (m : Option SignedKV) (v : Bytes) : Prop :=
  ∃ old, preBatchValue FromLeafValue leaves (toArray (GetKey (GetKeyValue m))) = .ok old ∧
    Mutate old m = .ok v

/-- The mutation `m` is accepted by `Mutate`. -/
def Accepted {Entry : Type}
    (Mutate : Option Entry → Option SignedKV → Except Error Bytes)
    (FromLeafValue : Bytes → Except Error (Option Entry))
    (leaves : List MapLeaf) (m : Option SignedKV) : Prop :=
  ∃ v, AcceptedWith Mutate FromLeafValue leaves m v

/-! ## The timing controller: `genEpochTicks` -/

/-- The largest `int64`, which is also the largest `time.Duration`. -/
def maxInt64 : Int := 9223372036854775807

/-- The smallest `int64`, which is also the smallest `time.Duration`. -/
def minInt64 : Int := -9223372036854775808

/-- Two's complement wrap-around of an integer into the `int64` range. -/
def wrapInt64 (x : Int) : Int :=
  (x + 9223372036854775808) % 18446744073709551616 - 9223372036854775808

/-- The method `time.Time.Sub`: the duration `t - u` in nanoseconds, and the
largest (smallest) duration when the difference does not fit. Instants are
integers counting nanoseconds. -/
def Time.Sub (t u : Int) : Int :=
  if maxInt64 < t - u then maxInt64
  else if t - u < minInt64 then minInt64
  else t - u

/-- The sum of two `time.Duration` values, an `int64` addition. -/
def addDuration (a b : Int) : Int := wrapInt64 (a + b)

/-- One value sent on the `enforce` channel, together with the instant it was
decided at and the value `last` had when it was decided. -/
structure Decision where
  force : Bool
  now : Int
  last : Int
  deriving DecidableEq, Repr

/-- The loop `for now := range minTick` of `genEpochTicks`, run on the ticks
received from the channel. -/
def tickLoop (minElapsed maxElapsed : Int) (last : Int) : List Int → List Decision
  | [] => []
  | now :: rest =>
    if maxElapsed ≤ addDuration (Time.Sub now last) minElapsed then
      { force := true, now := now, last := last } :: tickLoop minElapsed maxElapsed now rest
    else
      { force := false, now := now, last := last } :: tickLoop minElapsed maxElapsed last rest

/-- The goroutine of `genEpochTicks`: the values it sends on `enforce`, in
order. `t n` is the instant returned by the call number `n` of `t.Now()`
(there are two calls when the start-up test succeeds, one otherwise) and
`minTick` lists the instants received from the tick channel. -/
def genEpochTicks (t : Nat → Int) (last : Int) (minTick : List Int)
    (minElapsed maxElapsed : Int) : List Decision :=
  if maxElapsed ≤ addDuration (Time.Sub (t 0) last) minElapsed then
    { force := true, now := t 0, last := last } ::
      tickLoop minElapsed maxElapsed (t 1) minTick
  else
    tickLoop minElapsed maxElapsed last minTick

/-- Each tick comes at most `minElapsed` after the one before it, the first
one at most `minElapsed` after `prev`. -/
def TicksWithin (minElapsed : Int) : Int → List Int → Prop
  | _, [] => True
  | prev, now :: rest => now - prev ≤ minElapsed ∧ TicksWithin minElapsed now rest

/-- What the timing claim asks of one decision: a tick answered false lies
strictly less than `maxElapsed - minElapsed` after `last`, and a forced epoch
is decided at most `maxElapsed` after `last`. -/
def DecisionInTime (minElapsed maxElapsed : Int) (d : Decision) : Prop :=
  (d.force = false → d.now - d.last < maxElapsed - minElapsed) ∧
  (d.force = true → d.now - d.last ≤ maxElapsed)

instance (minElapsed maxElapsed : Int) (d : Decision) :
    Decidable (DecisionInTime minElapsed maxElapsed d) := by
  unfold DecisionInTime; infer_instance

instance TicksWithin.decide (minElapsed : Int) :
    (prev : Int) → (ticks : List Int) → Decidable (TicksWithin minElapsed prev ticks)
  | _, [] => isTrue trivial
  | prev, now :: rest =>
    have := TicksWithin.decide minElapsed now rest
    by unfold TicksWithin; exact inferInstance

/-! ## Messages of the map, the log and the mutations API -/

/-- The per-revision metadata of the map (`trillian.MapperMetadata`). -/
structure MapperMetadata where
  HighestFullyCompletedSeq : Int
  deriving DecidableEq, Repr

/-- A signed map root (`trillian.SignedMapRoot`). -/
structure SignedMapRoot where
  TimestampNanos : Int
  RootHash : Bytes
  Metadata : Option MapperMetadata
  Signature : Bytes
  MapId : Int
  MapRevision : Int
  deriving DecidableEq, Repr

/-- The nil-safe getter chain `GetMetadata().GetHighestFullyCompletedSeq()`
on a map root pointer. -/
def GetHighestFullyCompletedSeq (root : Option SignedMapRoot) : Int :=
  match root with
  | some r =>
    match r.Metadata with
    | some md => md.HighestFullyCompletedSeq
    | none => 0
  | none => 0

/-- The nil-safe getter `GetMapRevision()` on a map root pointer. -/
def GetMapRevision (root : Option SignedMapRoot) : Int :=
  match root with
  | some r => r.MapRevision
  | none => 0

/-- The nil-safe getter `GetRootHash()` on a map root pointer. -/
def GetRootHash (root : Option SignedMapRoot) : Bytes :=
  match root with
  | some r => r.RootHash
  | none => []

/-- One entry of a `GetLeaves` response (`trillian.MapLeafInclusion`). -/
structure MapLeafInclusion where
  Leaf : Option MapLeaf
  Inclusion : List Bytes
  deriving DecidableEq, Repr

/-- The response of `GetLeaves` (`trillian.GetMapLeavesResponse`). -/
structure GetMapLeavesResponse where
  MapLeafInclusion : List (Option MapLeafInclusion)
  MapRoot : Option SignedMapRoot
  deriving DecidableEq, Repr

/-- The response of the mutations API (`ktpb.GetMutationsResponse`). -/
structure GetMutationsResponse where
  Epoch : Int
  Smr : Option SignedMapRoot
  Mutations : List (Option SignedKV)
  deriving DecidableEq, Repr

/-! ## The result store of the monitor -/

/-- The record kept for one epoch (`storage.MonitoringResult`). -/
structure MonitoringResult where
  Smr : Option SignedMapRoot
  Seen : Int
  Errors : List Error
  Response : Option GetMutationsResponse
  deriving DecidableEq, Repr

namespace CoreStorage

/-- The variable `ErrAlreadyStored` of `core/monitor/storage`. -/
def ErrAlreadyStored : Error := .coreAlreadyStored

/-- The variable `ErrNotFound` of `core/monitor/storage`. -/
def ErrNotFound : Error := .coreNotFound

end CoreStorage

/-- The in-memory store of `impl/monitor/storage`. -/
structure Storage where
  store : GoMap Int MonitoringResult
  latest : Int
  deriving DecidableEq, Repr

namespace Storage

/-- The variable `ErrAlreadyStored` of `impl/monitor/storage`. -/
def ErrAlreadyStored : Error := .implAlreadyStored

/-- The variable `ErrNotFound` of `impl/monitor/storage`. -/
def ErrNotFound : Error := .implNotFound

/-- The constructor `New`: an empty map, `latest` at its zero value. -/
def New : Storage := { store := [], latest := 0 }

/-- The method `(*Storage).Set`: the store after the call and the error
returned. -/
def Set (s : Storage) (epoch : Int) (seenNanos : Int) (smr : Option SignedMapRoot)
    (response : Option GetMutationsResponse) (errorList : List Error) :
    Storage × Option Error :=
  match GoMap.get epoch s.store with
  | some _ => (s, some ErrAlreadyStored)
  | none =>
    ({ store := GoMap.set epoch
          { Smr := smr, Seen := seenNanos, Response := response, Errors := errorList } s.store,
       latest := epoch }, none)

/-- The method `(*Storage).Get`. -/
def Get (s : Storage) (epoch : Int) : Option MonitoringResult × Option Error :=
  match GoMap.get epoch s.store with
  | some result => (some result, none)
  | none => (none, some ErrNotFound)

/-- The method `(*Storage).LatestEpoch`. -/
def LatestEpoch (s : Storage) : Int := s.latest

end Storage

/-- The arguments of one call of `Set`. -/
structure SetCall where
  epoch : Int
  seenNanos : Int
  smr : Option SignedMapRoot
  response : Option GetMutationsResponse
  errorList : List Error
  deriving DecidableEq, Repr

/-- The store after a sequence of `Set` calls, whatever each returns. -/
def runSets (s : Storage) : List SetCall → Storage
  | [] => s
  | c :: rest =>
    runSets (Storage.Set s c.epoch c.seenNanos c.smr c.response c.errorList).1 rest

/-- The epochs of the calls of a sequence that return no error, in call
order. -/
def succeededEpochs (s : Storage) : List SetCall → List Int
  | [] => []
  | c :: rest =>
    match Storage.Set s c.epoch c.seenNanos c.smr c.response c.errorList with
    | (s1, none) => c.epoch :: succeededEpochs s1 rest
    | (s1, some _) => succeededEpochs s1 rest

/-- The highest number of a list of epochs, `none` for the empty list. -/
def highestEpoch : List Int → Option Int
  | [] => none
  | e :: rest =>
    match highestEpoch rest with
    | none => some e
    | some h => some (max e h)

/-- The interface `storage.Storage` of `core/monitor/storage`, over a store
state `S`. -/
structure StorageOps (S : Type) where
  Set : S → Int → Int → Option SignedMapRoot → Option GetMutationsResponse →
    List Error → S × Option Error
  Get : S → Int → Option MonitoringResult × Option Error
  LatestEpoch : S → Int

/-- The in-memory store as an implementation of the interface. -/
def Storage.ops : StorageOps Storage :=
  { Set := Storage.Set, Get := Storage.Get, LatestEpoch := Storage.LatestEpoch }

/-! ## The BFTKV-backed result store -/

/-- The calls of `protocol.Client` that the store uses, over a client state
`C`. -/
structure BftkvClient (C : Type) where
  Read : Bytes → C → Except Error Bytes × C
  Write : Bytes → Bytes → C → Option Error × C

/-- The conversion `uint64(x)` of an `int64`. -/
def toUint64 (x : Int) : Nat := (x % 18446744073709551616).toNat

/-- The conversion `int64(n)` of a `uint64`. -/
def toInt64 (n : Nat) : Int := wrapInt64 (n : Int)

/-- The bytes written by `binary.Write(&buf, binary.BigEndian, epoch)` for an
`int64`: eight bytes, most significant first. -/
def bigEndian64 (epoch : Int) : Bytes :=
  let u := toUint64 epoch
  [u / 72057594037927936 % 256, u / 281474976710656 % 256, u / 1099511627776 % 256,
   u / 4294967296 % 256, u / 16777216 % 256, u / 65536 % 256, u / 256 % 256, u % 256]

/-- The store of `impl/monitor/storage/bftkvst`: the local store and the
client, which is nil when it could not be opened. -/
structure bftkvStorage (C : Type) where
  storage : Storage
  client : Option C

namespace bftkvStorage

/-- The method `(*bftkvStorage).Set`. `text` is `response.String()`. -/
def Set {C : Type} (api : BftkvClient C) (text : Option GetMutationsResponse → Bytes)
    (s : bftkvStorage C) (epoch : Int) (seenNanos : Int) (smr : Option SignedMapRoot)
    (response : Option GetMutationsResponse) (errorList : List Error) :
    bftkvStorage C × Option Error :=
  match Storage.Set s.storage epoch seenNanos smr response errorList with
  | (st, some err) => ({ storage := st, client := s.client }, some err)
  | (st, none) =>
    match s.client with
    | none => ({ storage := st, client := none }, none)
    | some c =>
      let key := bigEndian64 epoch
      match api.Read key c with
      | (.ok _, c1) => ({ storage := st, client := some c1 }, some CoreStorage.ErrAlreadyStored)
      | (.error _, c1) =>
        match api.Write key (text response) c1 with
        | (err, c2) => ({ storage := st, client := some c2 }, err)

/-- The method `(*bftkvStorage).Get`. -/
def Get {C : Type} (s : bftkvStorage C) (epoch : Int) :
    Option MonitoringResult × Option Error :=
  Storage.Get s.storage epoch

/-- The method `(*bftkvStorage).LatestEpoch`. -/
def LatestEpoch {C : Type} (s : bftkvStorage C) : Int :=
  Storage.LatestEpoch s.storage

/-- The BFTKV-backed store as an implementation of the interface. -/
def ops {C : Type} (api : BftkvClient C) (text : Option GetMutationsResponse → Bytes) :
    StorageOps (bftkvStorage C) :=
  { Set := Set api text, Get := Get, LatestEpoch := LatestEpoch }

end bftkvStorage

/-! ## The monitor: `Process` -/

/-- How a call ends: it returns its error value (nil is `none`), or the
goroutine crashes on a nil pointer dereference. -/
inductive Outcome where
  | returned (err : Option Error)
  | crashed
  deriving DecidableEq, Repr

/-- The struct `Monitor`, with the parts that `Process` uses. The store is an
implementation of the interface over the state `S`; the verifier and the
signer are methods declared in other files of the package. `readFromBFTKV`
stands for the HTTP round trip of the function of that name, over the state
`W` of the witness service. The key is
`string(smr.MapId) + "|" + string(resp.Epoch)` and is given here by the two
numbers. The round trip answers `none` when it does not yield a response:
either `http.NewRequest` rejects the URL (each number is converted to the
character with that code point, and a key with a control character is no
URL), after which `client.Do` runs on a nil request, or `client.Do` fails, in
which case `resp` is nil and `resp.Body` is a nil dereference. Otherwise it
answers the text that the function returns. -/
structure Monitor (S W : Type) where
  verifyMutationsResponse : GetMutationsResponse → List Error
  signMapRoot : GetMutationsResponse → Except Error (Option SignedMapRoot)
  store : StorageOps S
  readFromBFTKV : Int → Int → W → Option String × W

/-- The state and outcome at the end of a call of `Process`. -/
structure ProcessRun (S W : Type) where
  outcome : Outcome
  store : S
  witness : W

/-- The method `(*Monitor).Process`, for a non-nil response. `seen` is
`time.Now().Unix()`. -/
def Process {S W : Type} (m : Monitor S W) (resp : GetMutationsResponse) (seen : Int)
    (st : S) (w : W) : ProcessRun S W :=
  let errs := m.verifyMutationsResponse resp
  let signed : Except Error (Option SignedMapRoot) :=
    if errs.length = 0 then m.signMapRoot resp else .ok none
  match signed with
  | .error err =>
    { outcome := .returned (some (err.wrap "m.signMapRoot(_)")), store := st, witness := w }
  | .ok smr =>
    match m.store.Set st resp.Epoch seen smr (some resp) errs with
    | (st1, some err) => { outcome := .returned (some err), store := st1, witness := w }
    | (st1, none) =>
      match smr with
      | none => { outcome := .crashed, store := st1, witness := w }
      | some root =>
        match m.readFromBFTKV root.MapId resp.Epoch w with
        | (none, w1) => { outcome := .crashed, store := st1, witness := w1 }
        | (some _, w1) => { outcome := .returned none, store := st1, witness := w1 }

/-! ## The sequencer: `newMutations`, `queueLogLeaf`, `CreateEpoch` -/

/-- The remote calls issued by the sequencer, with their arguments. -/
inductive Call where
  | GetSignedMapRoot (mapID : Int)
  | NewTxn
  | ReadAll (startSequence : Nat)
  | Rollback
  | Commit
  | GetLeaves (mapID : Int) (indexes : List Bytes) (revision : Int)
  | SetLeaves (mapID : Int) (leaves : List MapLeaf) (highestFullyCompletedSeq : Int)
  | QueueLeaf (logID : Int) (leafValue : Bytes) (leafIdentityHash : Bytes)
  | WriteToBFTKV (mapID : Int) (revision : Int) (rootHash : Bytes)
  deriving DecidableEq, Repr

/-- The calls of `trillian.TrillianMapClient` that the sequencer uses, over
the state `W` of the services behind it. A response is given by the map root
it carries; `GetSignedMapRoot` and `SetLeaves` responses are read through
nil-safe getters only, so a nil response and a response without map root are
the same. -/
structure TrillianMapClient (W : Type) where
  GetSignedMapRoot : Int → W → Except Error (Option SignedMapRoot) × W
  GetLeaves : Int → List Bytes → Int → W → Except Error (Option GetMapLeavesResponse) × W
  SetLeaves : Int → List MapLeaf → Int → W → Except Error (Option SignedMapRoot) × W

/-- The call of `trillian.TrillianLogClient` that `queueLogLeaf` uses. -/
structure TrillianLogClient (W : Type) where
  QueueLeaf : Int → Bytes → Bytes → W → Option Error × W

/-- The interface `mutator.Mutator`. -/
structure Mutator (Entry : Type) where
  Mutate : Option Entry → Option SignedKV → Except Error Bytes

/-- The interface `mutator.Mutation`, the mutation queue, with transactions
of type `T`: `ReadAll` returns the highest sequence number read and the
mutations. -/
structure Mutation (W T : Type) where
  ReadAll : T → Nat → W → Except Error (Nat × List (Option SignedKV)) × W

/-- The interface `transaction.Factory` together with the two methods of the
transactions it makes. -/
structure Factory (W T : Type) where
  NewTxn : W → Except Error T × W
  Rollback : T → W → Option Error × W
  Commit : T → W → Option Error × W

/-- The struct `Sequencer`. Next to its Go fields it carries the library
functions the methods call: `entry.FromLeafValue`, `json.Marshal` on a map
root pointer, `sha256.Sum256`, and the HTTP round trip of `writeToBFTKV`
for the key `string(s.mapID) + "|" + string(revision)`, given here by the two
numbers. The round trip answers `false` when it does not yield a response:
either `http.NewRequest` rejects the URL (each number is converted to the
character with that code point, and a key with a control character is no
URL), after which `client.Do` runs on a nil request, or `client.Do` fails, in
which case `resp` is nil and `resp.Body` is a nil dereference. -/
structure Sequencer (W T Entry : Type) where
  mapID : Int
  tmap : TrillianMapClient W
  logID : Int
  tlog : TrillianLogClient W
  mutator : Mutator Entry
  mutations : Mutation W T
  factory : Factory W T
  FromLeafValue : Bytes → Except Error (Option Entry)
  Marshal : Option SignedMapRoot → Except Error Bytes
  Sum256 : Bytes → Bytes
  writeToBFTKV : Int → Int → Bytes → W → Bool × W

/-- The state, outcome and remote calls of a run. -/
structure Run (W : Type) where
  outcome : Outcome
  world : W
  calls : List Call

/-- The method `(*Sequencer).newMutations`: the result, the state after it
and the calls made. -/
def newMutations {W T Entry : Type} (s : Sequencer W T Entry) (startSequence : Int) (w : W) :
    Except Error (List (Option SignedKV) × Int) × W × List Call :=
  match s.factory.NewTxn w with
  | (.error err, w1) => (.error (err.wrap "NewDBTxn()"), w1, [.NewTxn])
  | (.ok txn, w1) =>
    match s.mutations.ReadAll txn (toUint64 startSequence) w1 with
    | (.error err, w2) =>
      (.error (err.wrap ("ReadAll(" ++ fmtInt startSequence ++ ")")),
        (s.factory.Rollback txn w2).2,
        [.NewTxn, .ReadAll (toUint64 startSequence), .Rollback])
    | (.ok (maxSequence, mutations), w2) =>
      match s.factory.Commit txn w2 with
      | (some err, w3) =>
        (.error (err.wrap "txn.Commit()"), w3,
          [.NewTxn, .ReadAll (toUint64 startSequence), .Commit])
      | (none, w3) =>
        (.ok (mutations, toInt64 maxSequence), w3,
          [.NewTxn, .ReadAll (toUint64 startSequence), .Commit])

/-- The function `queueLogLeaf`. -/
def queueLogLeaf {W T Entry : Type} (s : Sequencer W T Entry) (smr : Option SignedMapRoot)
    (w : W) : Option Error × W × List Call :=
  match s.Marshal smr with
  | .error err => (some err, w, [])
  | .ok smrJSON =>
    let idHash := s.Sum256 smrJSON
    match s.tlog.QueueLeaf s.logID smrJSON idHash w with
    | (some err, w1) =>
      (some (err.wrap ("trillianLog.QueueLeaf(logID: " ++ fmtInt s.logID ++ ", leaf: " ++
          fmtBytes smrJSON ++ ")")),
        w1, [.QueueLeaf s.logID smrJSON idHash])
    | (none, w1) => (none, w1, [.QueueLeaf s.logID smrJSON idHash])

/-- The loop of `CreateEpoch` that collects `m.KeyValue.Key`; a nil mutation
or a nil `KeyValue` is a nil dereference (`none`). -/
def collectIndexes : List (Option SignedKV) → Option (List Bytes)
  | [] => some []
  | m :: rest =>
    match m with
    | none => none
    | some kv =>
      match kv.KeyValue with
      | none => none
      | some x =>
        match collectIndexes rest with
        | none => none
        | some indexes => some (x.Key :: indexes)

/-- The loop of `CreateEpoch` that collects `m.Leaf`; a nil inclusion is a
nil dereference (`none`), a nil leaf is appended as it is. -/
def collectLeaves : List (Option MapLeafInclusion) → Option (List (Option MapLeaf))
  | [] => some []
  | m :: rest =>
    match m with
    | none => none
    | some inc =>
      match collectLeaves rest with
      | none => none
      | some leaves => some (inc.Leaf :: leaves)

/-- The method `(*Sequencer).CreateEpoch`. The leaves passed to `SetLeaves`
are those of `applyMutations` in the order of the embedding; the metrics and
the log lines are left out. -/
def CreateEpoch {W T Entry : Type} (s : Sequencer W T Entry) (forceNewEpoch : Bool) (w : W) :
    Run W :=
  match s.tmap.GetSignedMapRoot s.mapID w with
  | (.error err, w1) =>
    { outcome := .returned (some (err.wrap ("GetSignedMapRoot(" ++ fmtInt s.mapID ++ ")"))),
      world := w1,
      calls := [.GetSignedMapRoot s.mapID] }
  | (.ok rootResp, w1) =>
    let startSequence := GetHighestFullyCompletedSeq rootResp
    match newMutations s startSequence w1 with
    | (.error err, w2, c2) =>
      { outcome := .returned
          (some (err.wrap ("newMutations(" ++ fmtInt startSequence ++ ")"))),
        world := w2,
        calls := .GetSignedMapRoot s.mapID :: c2 }
    | (.ok (mutations, seq), w2, c2) =>
      if mutations.length = 0 ∧ forceNewEpoch = false then
        { outcome := .returned none, world := w2, calls := .GetSignedMapRoot s.mapID :: c2 }
      else
        match collectIndexes mutations with
        | none => { outcome := .crashed, world := w2, calls := .GetSignedMapRoot s.mapID :: c2 }
        | some indexes =>
          let c3 := .GetSignedMapRoot s.mapID :: c2 ++ [.GetLeaves s.mapID indexes (-1)]
          match s.tmap.GetLeaves s.mapID indexes (-1) w2 with
          | (.error err, w3) => { outcome := .returned (some err), world := w3, calls := c3 }
          | (.ok none, w3) => { outcome := .crashed, world := w3, calls := c3 }
          | (.ok (some getResp), w3) =>
            match collectLeaves getResp.MapLeafInclusion with
            | none => { outcome := .crashed, world := w3, calls := c3 }
            | some leaves =>
              match applyMutations s.mutator.Mutate s.FromLeafValue mutations leaves with
              | none => { outcome := .crashed, world := w3, calls := c3 }
              | some (_, some err) =>
                { outcome := .returned (some err), world := w3, calls := c3 }
              | some (newLeaves, none) =>
                let c4 := c3 ++ [.SetLeaves s.mapID newLeaves seq]
                match s.tmap.SetLeaves s.mapID newLeaves seq w3 with
                | (.error err, w4) =>
                  { outcome := .returned (some err), world := w4, calls := c4 }
                | (.ok setResp, w4) =>
                  let revision := GetMapRevision setResp
                  match queueLogLeaf s setResp w4 with
                  | (some err, w5, c5) =>
                    { outcome := .returned (some err), world := w5, calls := c4 ++ c5 }
                  | (none, w5, c5) =>
                    let c6 := c4 ++ c5 ++
                      [.WriteToBFTKV s.mapID revision (GetRootHash setResp)]
                    match s.writeToBFTKV s.mapID revision (GetRootHash setResp) w5 with
                    | (false, w6) => { outcome := .crashed, world := w6, calls := c6 }
                    | (true, w6) => { outcome := .returned none, world := w6, calls := c6 }

/-! ## Vocabulary of the proofs and examples -/

/-- The leaf that the loop of `applyMutations` stores for `m`, when the
mutator accepts `m` on the pre-batch value of its key. -/
def newLeaf? {Entry : Type}
    (Mutate : Option Entry → Option SignedKV → Except Error Bytes)
    (FromLeafValue : Bytes → Except Error (Option Entry))
    (leaves : List MapLeaf) (m : Option SignedKV) : Option MapLeaf :=
  match preBatchValue FromLeafValue leaves (toArray (GetKey (GetKeyValue m))) with
  | .error _ => none
  | .ok old =>
    match Mutate old m with
    | .error _ => none
    | .ok v => some { Index := GetKey (GetKeyValue m), LeafHash := [], LeafValue := v, ExtraData := [] }

/-- The leaf of the last mutation for the canonical key `k` that stores one. -/
def lastNew {Entry : Type}
    (Mutate : Option Entry → Option SignedKV → Except Error Bytes)
    (FromLeafValue : Bytes → Except Error (Option Entry))
    (leaves : List MapLeaf) (k : Bytes) : List (Option SignedKV) → Option MapLeaf
  | [] => none
  | m :: rest =>
    match lastNew Mutate FromLeafValue leaves k rest with
    | some l => some l
    | none =>
      if toArray (GetKey (GetKeyValue m)) = k then newLeaf? Mutate FromLeafValue leaves m
      else none

/-- The invariant of a map from canonical keys to leaves: no key twice, and
every leaf is stored under the canonical form of its index. -/
def KeyedByIndex (r : GoMap Bytes MapLeaf) : Prop :=
  (r.map Prod.fst).Nodup ∧ ∀ p ∈ r, toArray p.2.Index = p.1

/-- A mutator for the examples: it accepts a mutation that carries a
non-empty value and returns that value, whatever the old value is. -/
def exampleMutate (_old : Option Bytes) (m : Option SignedKV) : Except Error Bytes :=
  match GetKeyValue m with
  | some kv => if kv.Value = [] then .error (.other "empty value") else .ok kv.Value
  | none => .error (.other "no key")

/-- A decoder for the examples: the entry is the leaf value itself. -/
def exampleFromLeafValue (b : Bytes) : Except Error (Option Bytes) := .ok (some b)

/-- A mutation for the examples. -/
def exampleMutation (key value : Bytes) : Option SignedKV :=
  some { KeyValue := some { Key := key, Value := value }, Signatures := [], Previous := [] }

/-- The batch of the examples: two mutations for the key 65, one for the key
66, and a mutation for the key 67 that the example mutator rejects. -/
def exampleBatch : List (Option SignedKV) :=
  [exampleMutation [65] [1], exampleMutation [65] [2], exampleMutation [66] [3],
   exampleMutation [67] []]


/-- The claim that `LatestEpoch` is the highest epoch that was stored, and 0
when none was. -/
def LatestIsHighest (calls : List SetCall) : Prop :=
  Storage.LatestEpoch (runSets Storage.New calls) =
    (highestEpoch (succeededEpochs Storage.New calls)).getD 0

instance (calls : List SetCall) : Decidable (LatestIsHighest calls) := by
  unfold LatestIsHighest; infer_instance

/-- The record that `Set` stores for a call. -/
def SetCall.result (c : SetCall) : MonitoringResult :=
  { Smr := c.smr, Seen := c.seenNanos, Response := c.response, Errors := c.errorList }


/-- A call of `Set` for the examples: the given epoch, no map root, no
response, no error. -/
def exampleSet (epoch : Int) : SetCall :=
  { epoch := epoch, seenNanos := 0, smr := none, response := none, errorList := [] }

/-- Every inclusion of a `GetLeaves` response is present and carries a
leaf. -/
def WellFormedLeaves (resp : GetMapLeavesResponse) : Prop :=
  ∀ inc ∈ resp.MapLeafInclusion, ∃ i l, inc = some i ∧ i.Leaf = some l

/-- A map root for the examples, of the map 65, with the given high-water
mark and revision. -/
def exampleRoot (seq revision : Int) : SignedMapRoot :=
  { TimestampNanos := 0, RootHash := [1], Metadata := some { HighestFullyCompletedSeq := seq },
    Signature := [], MapId := 65, MapRevision := revision }

/-- The numbers whose character is an ASCII letter or digit. A witness key
built from two such numbers is a well-formed URL path; the services of the
examples answer for these keys only. -/
def exampleKeyPart (n : Int) : Bool :=
  (48 ≤ n ∧ n ≤ 57) ∨ (65 ≤ n ∧ n ≤ 90) ∨ (97 ≤ n ∧ n ≤ 122)

/-- A sequencer for the examples. The state of the services is the current
map head: `GetSignedMapRoot` returns it, and `SetLeaves` replaces it by a head
with the next revision and the high-water mark of the write. The map holds no
leaves. The mutation queue answers `ReadAll` with the maximum `maxSequence`
and the mutations `pending`. Every call of the map, the log and the queue
succeeds; the round trip to the witness yields a response when the map
identifier and the revision are the code points of letters or digits, and no
response otherwise. The map identifier is 65. -/
def exampleSequencer (maxSequence : Nat) (pending : List (Option SignedKV)) :
    Sequencer SignedMapRoot Unit Bytes :=
  { mapID := 65
    tmap :=
      { GetSignedMapRoot := fun _ w => (.ok (some w), w)
        GetLeaves := fun _ _ _ w => (.ok (some { MapLeafInclusion := [], MapRoot := none }), w)
        SetLeaves := fun _ _ seq w =>
          (.ok (some (exampleRoot seq (w.MapRevision + 1))), exampleRoot seq (w.MapRevision + 1)) }
    logID := 2
    tlog := { QueueLeaf := fun _ _ _ w => (none, w) }
    mutator := { Mutate := exampleMutate }
    mutations := { ReadAll := fun _ _ w => (.ok (maxSequence, pending), w) }
    factory :=
      { NewTxn := fun w => (.ok (), w)
        Rollback := fun _ w => (none, w)
        Commit := fun _ w => (none, w) }
    FromLeafValue := exampleFromLeafValue
    Marshal := fun smr => .ok (GetRootHash smr)
    Sum256 := fun b => b
    writeToBFTKV := fun mapID revision _ w =>
      (exampleKeyPart mapID && exampleKeyPart revision, w) }

/-- A monitor for the examples: the verifier finds no failure, the signer
returns the map root of the response, the store is the in-memory store, and
the witness service answers with an empty text when the map identifier and
the epoch are the code points of letters or digits, and yields no response
otherwise. -/
def exampleMonitor : Monitor Storage Unit :=
  { verifyMutationsResponse := fun _ => []
    signMapRoot := fun resp => .ok resp.Smr
    store := Storage.ops
    readFromBFTKV := fun mapId epoch w =>
      (if exampleKeyPart mapId && exampleKeyPart epoch then some "" else none, w) }

/-- A response for the examples, for epoch 66 of the map 65. -/
def exampleResponse : GetMutationsResponse :=
  { Epoch := 66, Smr := some (exampleRoot 4 66), Mutations := [] }

/-- A monitor for the examples whose verifier reports one failure; the store
is the in-memory store and the witness service is the one of
`exampleMonitor`. -/
def exampleFailingMonitor : Monitor Storage Unit :=
  { verifyMutationsResponse := fun _ => [Error.other "invalid map root signature"]
    signMapRoot := fun resp => .ok resp.Smr
    store := Storage.ops
    readFromBFTKV := fun mapId epoch w =>
      (if exampleKeyPart mapId && exampleKeyPart epoch then some "" else none, w) }

/-- A BFTKV client for the examples, over the list of the pairs written so
far: `Read` fails for a key that was never written, `Write` adds a pair and
succeeds. -/
def exampleBftkv : BftkvClient (List (Bytes × Bytes)) :=
  { Read := fun key c =>
      match GoMap.get key c with
      | some v => (.ok v, c)
      | none => (.error (Error.other "not found"), c)
    Write := fun key v c => (none, GoMap.set key v c) }

/-- The text of a response for the examples: its epoch as eight bytes. -/
def exampleText (response : Option GetMutationsResponse) : Bytes :=
  match response with
  | some r => bigEndian64 r.Epoch
  | none => []

/-- The field `last` of the decisions follows the variable `last` of the
controller: it is `cur` for the next decision, and after a forced epoch it is
the instant of that decision. -/
def LastTracked : Int → List Decision → Prop
  | _, [] => True
  | cur, d :: rest => d.last = cur ∧ LastTracked (if d.force = true then d.now else cur) rest

/-- The ticks of the examples: one every second, from 1 s to 6 s after the
instant 0, in nanoseconds. -/
def exampleTicks : List Int :=
  [1000000000, 2000000000, 3000000000, 4000000000, 5000000000, 6000000000]

/-! # Properties -/

/-! ## Go maps -/

namespace GoMap

variable {K V : Type} [DecidableEq K]

theorem get_set_self (k : K) (v : V) (m : GoMap K V) : get k (set k v m) = some v := by
  induction m with
  | nil => simp [set, get]
  | cons p rest ih =>
    obtain ⟨k1, v1⟩ := p
    by_cases h : k1 = k
    · simp [set, get, h]
    · simp [set, get, h, ih]

theorem get_set_of_ne (k j : K) (v : V) (m : GoMap K V) (h : k ≠ j) :
    get j (set k v m) = get j m := by
  induction m with
  | nil => simp [set, get, h]
  | cons p rest ih =>
    obtain ⟨k1, v1⟩ := p
    by_cases h1 : k1 = k
    · subst h1
      simp [set, get, h]
    · by_cases h2 : k1 = j
      · subst h2
        simp [set, get, h1]
      · simp [set, get, h1, h2, ih]

theorem mem_set (k : K) (v : V) (m : GoMap K V) (p : K × V) (hp : p ∈ set k v m) :
    p = (k, v) ∨ p ∈ m := by
  induction m with
  | nil =>
    simp only [set, List.mem_singleton] at hp
    exact Or.inl hp
  | cons q rest ih =>
    obtain ⟨k1, v1⟩ := q
    by_cases h : k1 = k
    · subst h
      simp only [set, if_true, List.mem_cons] at hp
      rcases hp with hp | hp
      · exact Or.inl hp
      · exact Or.inr (List.mem_cons_of_mem _ hp)
    · simp only [set, h, if_false, List.mem_cons] at hp
      rcases hp with hp | hp
      · right; subst hp; exact List.mem_cons_self _ _
      · rcases ih hp with h1 | h1
        · exact Or.inl h1
        · exact Or.inr (List.mem_cons_of_mem _ h1)

theorem keys_set (k : K) (v : V) (m : GoMap K V) :
    (set k v m).map Prod.fst =
      if k ∈ m.map Prod.fst then m.map Prod.fst else m.map Prod.fst ++ [k] := by
  induction m with
  | nil => simp [set]
  | cons q rest ih =>
    obtain ⟨k1, v1⟩ := q
    by_cases h : k1 = k
    · subst h
      simp [set]
    · have h1 : ¬ k = k1 := fun e => h e.symm
      simp only [set, h, if_false, List.map_cons, ih, List.mem_cons, h1, false_or]
      split <;> simp

theorem nodup_keys_set (k : K) (v : V) (m : GoMap K V) (h : (m.map Prod.fst).Nodup) :
    ((set k v m).map Prod.fst).Nodup := by
  rw [keys_set]
  split
  · exact h
  · rename_i hk
    rw [List.nodup_append]
    refine ⟨h, List.nodup_singleton k, ?_⟩
    intro a ha hb
    simp only [List.mem_singleton] at hb
    subst hb
    exact hk ha

theorem get_eq_none_of_not_mem (k : K) (m : GoMap K V) (h : k ∉ m.map Prod.fst) :
    get k m = none := by
  induction m with
  | nil => rfl
  | cons q rest ih =>
    obtain ⟨k1, v1⟩ := q
    simp only [List.map_cons, List.mem_cons, not_or] at h
    have h1 : ¬ k1 = k := fun e => h.1 e.symm
    simp [get, h1, ih h.2]

theorem mem_of_get_eq_some (k : K) (v : V) (m : GoMap K V) (h : get k m = some v) :
    (k, v) ∈ m := by
  induction m with
  | nil => simp [get] at h
  | cons q rest ih =>
    obtain ⟨k1, v1⟩ := q
    by_cases h1 : k1 = k
    · subst h1
      simp only [get, if_true, Option.some.injEq] at h
      subst h
      exact List.mem_cons_self _ _
    · simp only [get, h1, if_false] at h
      exact List.mem_cons_of_mem _ (ih h)

end GoMap

theorem KeyedByIndex.nil : KeyedByIndex [] := by
  simp [KeyedByIndex]

theorem KeyedByIndex.set {r : GoMap Bytes MapLeaf} (h : KeyedByIndex r) (l : MapLeaf) :
    KeyedByIndex (GoMap.set (toArray l.Index) l r) := by
  refine ⟨GoMap.nodup_keys_set _ _ _ h.1, ?_⟩
  intro p hp
  rcases GoMap.mem_set _ _ _ _ hp with hp1 | hp1
  · subst hp1; rfl
  · exact h.2 p hp1

theorem KeyedByIndex.filter_values {r : GoMap Bytes MapLeaf} (h : KeyedByIndex r) (k : Bytes) :
    (GoMap.values r).filter (fun l => toArray l.Index = k) = (GoMap.get k r).toList := by
  induction r with
  | nil => simp [GoMap.values, GoMap.get]
  | cons q rest ih =>
    obtain ⟨k1, v1⟩ := q
    have hn := h.1
    simp only [List.map_cons, List.nodup_cons] at hn
    have hq : toArray v1.Index = k1 := h.2 (k1, v1) (List.mem_cons_self _ _)
    have hrest : KeyedByIndex rest :=
      ⟨hn.2, fun p hp => h.2 p (List.mem_cons_of_mem _ hp)⟩
    have ih1 := ih hrest
    simp only [GoMap.values] at ih1 ⊢
    by_cases hk : k1 = k
    · subst hk
      have hg : GoMap.get k1 rest = none := GoMap.get_eq_none_of_not_mem _ _ hn.1
      rw [hg] at ih1
      simp [GoMap.get, hq, ih1]
    · have hq1 : ¬ toArray v1.Index = k := by rw [hq]; exact hk
      simp [GoMap.get, hk, hq1, ih1]

theorem preBatchLeaf_cons (l : MapLeaf) (rest : List MapLeaf) (k : Bytes) :
    preBatchLeaf (l :: rest) k =
      if toArray l.Index = k then some ((preBatchLeaf rest k).getD l)
      else preBatchLeaf rest k := by
  unfold preBatchLeaf
  by_cases h : toArray l.Index = k
  · simp [List.filter_cons, h, List.getLast?_cons]
  · simp [List.filter_cons, h]

theorem leafMapLoop_some (leaves : List MapLeaf) (acc : GoMap Bytes MapLeaf) :
    ∃ lm, leafMapLoop acc (leaves.map some) = some lm ∧
      ∀ k, GoMap.get k lm = (preBatchLeaf leaves k).or (GoMap.get k acc) := by
  induction leaves generalizing acc with
  | nil => exact ⟨acc, rfl, fun k => by simp [preBatchLeaf]⟩
  | cons l rest ih =>
    obtain ⟨lm, h1, h2⟩ := ih (GoMap.set (toArray l.Index) l acc)
    refine ⟨lm, by simpa [leafMapLoop] using h1, ?_⟩
    intro k
    rw [h2 k, preBatchLeaf_cons]
    by_cases h : toArray l.Index = k
    · subst h
      rw [GoMap.get_set_self]
      cases preBatchLeaf rest (toArray l.Index) <;> simp
    · rw [GoMap.get_set_of_ne _ _ _ _ h]
      simp [h]

theorem applyStep_eq {Entry : Type}
    (Mutate : Option Entry → Option SignedKV → Except Error Bytes)
    (FromLeafValue : Bytes → Except Error (Option Entry))
    (leaves : List MapLeaf) (lm : GoMap Bytes MapLeaf)
    (hlm : ∀ k, GoMap.get k lm = preBatchLeaf leaves k)
    (r : GoMap Bytes MapLeaf) (m : Option SignedKV) :
    applyStep Mutate FromLeafValue lm r m =
      match newLeaf? Mutate FromLeafValue leaves m with
      | some l => GoMap.set (toArray l.Index) l r
      | none => r := by
  unfold applyStep newLeaf? preBatchValue
  simp only [hlm]
  cases preBatchLeaf leaves (toArray (GetKey (GetKeyValue m))) with
  | none =>
    simp only
    cases Mutate none m <;> rfl
  | some leaf =>
    simp only
    cases FromLeafValue leaf.LeafValue with
    | error e => rfl
    | ok old => simp only; cases Mutate old m <;> rfl

theorem newLeaf?_index {Entry : Type}
    (Mutate : Option Entry → Option SignedKV → Except Error Bytes)
    (FromLeafValue : Bytes → Except Error (Option Entry))
    (leaves : List MapLeaf) (m : Option SignedKV) (l : MapLeaf)
    (h : newLeaf? Mutate FromLeafValue leaves m = some l) :
    l.Index = GetKey (GetKeyValue m) := by
  unfold newLeaf? at h
  split at h
  · simp at h
  · split at h
    · simp at h
    · simp only [Option.some.injEq] at h
      rw [← h]

theorem mutationLoop_spec {Entry : Type}
    (Mutate : Option Entry → Option SignedKV → Except Error Bytes)
    (FromLeafValue : Bytes → Except Error (Option Entry))
    (leaves : List MapLeaf) (lm : GoMap Bytes MapLeaf)
    (hlm : ∀ k, GoMap.get k lm = preBatchLeaf leaves k)
    (ms : List (Option SignedKV)) (r : GoMap Bytes MapLeaf) (hr : KeyedByIndex r) :
    KeyedByIndex (mutationLoop Mutate FromLeafValue lm r ms) ∧
      ∀ k, GoMap.get k (mutationLoop Mutate FromLeafValue lm r ms) =
        (lastNew Mutate FromLeafValue leaves k ms).or (GoMap.get k r) := by
  induction ms generalizing r with
  | nil => exact ⟨hr, fun k => by simp [mutationLoop, lastNew]⟩
  | cons m rest ih =>
    have hstep := applyStep_eq Mutate FromLeafValue leaves lm hlm r m
    have hr1 : KeyedByIndex (applyStep Mutate FromLeafValue lm r m) := by
      rw [hstep]
      split
      · exact hr.set _
      · exact hr
    obtain ⟨h1, h2⟩ := ih _ hr1
    refine ⟨by simpa [mutationLoop] using h1, ?_⟩
    intro k
    simp only [mutationLoop, lastNew]
    rw [h2 k]
    cases hl : lastNew Mutate FromLeafValue leaves k rest with
    | some l => simp
    | none =>
      simp only [Option.or_none, Option.none_or]
      rw [hstep]
      cases hn : newLeaf? Mutate FromLeafValue leaves m with
      | none => simp
      | some l =>
        have hi := newLeaf?_index Mutate FromLeafValue leaves m l hn
        simp only
        by_cases hk : toArray (GetKey (GetKeyValue m)) = k
        · subst hk
          rw [hi, GoMap.get_set_self]
          simp
        · rw [GoMap.get_set_of_ne _ _ _ _ (by rw [hi]; exact hk)]
          simp [hk]

theorem newLeaf?_eq_some {Entry : Type}
    (Mutate : Option Entry → Option SignedKV → Except Error Bytes)
    (FromLeafValue : Bytes → Except Error (Option Entry))
    (leaves : List MapLeaf) (m : Option SignedKV) (l : MapLeaf)
    (h : newLeaf? Mutate FromLeafValue leaves m = some l) :
    ∃ old v, preBatchValue FromLeafValue leaves (toArray (GetKey (GetKeyValue m))) = .ok old ∧
      Mutate old m = .ok v ∧
      l = { Index := GetKey (GetKeyValue m), LeafHash := [], LeafValue := v, ExtraData := [] } := by
  unfold newLeaf? at h
  split at h
  · simp at h
  · rename_i old hold
    split at h
    · simp at h
    · rename_i v hv
      simp only [Option.some.injEq] at h
      exact ⟨old, v, hold, hv, h.symm⟩

theorem newLeaf?_eq_none {Entry : Type}
    (Mutate : Option Entry → Option SignedKV → Except Error Bytes)
    (FromLeafValue : Bytes → Except Error (Option Entry))
    (leaves : List MapLeaf) (m : Option SignedKV)
    (h : newLeaf? Mutate FromLeafValue leaves m = none) :
    ¬ Accepted Mutate FromLeafValue leaves m := by
  rintro ⟨v, old, hold, hv⟩
  unfold newLeaf? at h
  rw [hold] at h
  simp only [hv] at h
  exact Option.noConfusion h

theorem lastNew_eq_none {Entry : Type}
    (Mutate : Option Entry → Option SignedKV → Except Error Bytes)
    (FromLeafValue : Bytes → Except Error (Option Entry))
    (leaves : List MapLeaf) (k : Bytes) (ms : List (Option SignedKV))
    (h : lastNew Mutate FromLeafValue leaves k ms = none) :
    ∀ m ∈ ms, toArray (GetKey (GetKeyValue m)) = k → ¬ Accepted Mutate FromLeafValue leaves m := by
  induction ms with
  | nil => intro m hm; simp at hm
  | cons m0 rest ih =>
    simp only [lastNew] at h
    cases hl : lastNew Mutate FromLeafValue leaves k rest with
    | some l => rw [hl] at h; simp at h
    | none =>
      rw [hl] at h
      simp only at h
      intro m hm hk
      rcases List.mem_cons.mp hm with rfl | hm1
      · rw [if_pos hk] at h
        exact newLeaf?_eq_none Mutate FromLeafValue leaves _ h
      · exact ih hl m hm1 hk

theorem lastNew_eq_some {Entry : Type}
    (Mutate : Option Entry → Option SignedKV → Except Error Bytes)
    (FromLeafValue : Bytes → Except Error (Option Entry))
    (leaves : List MapLeaf) (k : Bytes) (ms : List (Option SignedKV)) (l : MapLeaf)
    (h : lastNew Mutate FromLeafValue leaves k ms = some l) :
    ∃ pre m post old v, ms = pre ++ m :: post ∧ toArray (GetKey (GetKeyValue m)) = k ∧
      (∀ n ∈ post, toArray (GetKey (GetKeyValue n)) = k →
        ¬ Accepted Mutate FromLeafValue leaves n) ∧
      preBatchValue FromLeafValue leaves k = .ok old ∧ Mutate old m = .ok v ∧
      l = { Index := GetKey (GetKeyValue m), LeafHash := [], LeafValue := v, ExtraData := [] } := by
  induction ms with
  | nil => simp [lastNew] at h
  | cons m0 rest ih =>
    simp only [lastNew] at h
    cases hl : lastNew Mutate FromLeafValue leaves k rest with
    | some l1 =>
      rw [hl] at h
      simp only [Option.some.injEq] at h
      subst h
      obtain ⟨pre, m, post, old, v, h1, h2, h3, h4, h5, h6⟩ := ih hl
      exact ⟨m0 :: pre, m, post, old, v, by rw [h1]; rfl, h2, h3, h4, h5, h6⟩
    | none =>
      rw [hl] at h
      simp only at h
      by_cases hk : toArray (GetKey (GetKeyValue m0)) = k
      · rw [if_pos hk] at h
        obtain ⟨old, v, h4, h5, h6⟩ := newLeaf?_eq_some Mutate FromLeafValue leaves m0 l h
        rw [hk] at h4
        exact ⟨[], m0, rest, old, v, rfl, hk,
          lastNew_eq_none Mutate FromLeafValue leaves k rest hl, h4, h5, h6⟩
      · rw [if_neg hk] at h
        exact Option.noConfusion h

theorem applyMutations_eq {Entry : Type}
    (Mutate : Option Entry → Option SignedKV → Except Error Bytes)
    (FromLeafValue : Bytes → Except Error (Option Entry))
    (mutations : List (Option SignedKV)) (leaves : List MapLeaf) :
    ∃ out, applyMutations Mutate FromLeafValue mutations (leaves.map some) = some (out, none) ∧
      ∀ ret : List MapLeaf, ret.Perm out → ∀ k,
        ret.filter (fun l => toArray l.Index = k) =
          (lastNew Mutate FromLeafValue leaves k mutations).toList := by
  obtain ⟨lm, h1, h2⟩ := leafMapLoop_some leaves []
  have hlm : ∀ k, GoMap.get k lm = preBatchLeaf leaves k := by
    intro k; rw [h2 k]; simp [GoMap.get]
  obtain ⟨h3, h4⟩ := mutationLoop_spec Mutate FromLeafValue leaves lm hlm mutations []
    KeyedByIndex.nil
  refine ⟨GoMap.values (mutationLoop Mutate FromLeafValue lm [] mutations),
    by simp only [applyMutations, h1], ?_⟩
  intro ret hret k
  have hp := hret.filter (fun l => decide (toArray l.Index = k))
  rw [h3.filter_values k, h4 k] at hp
  simp only [GoMap.get, Option.or_none] at hp
  cases hl : lastNew Mutate FromLeafValue leaves k mutations with
  | none =>
    rw [hl] at hp
    simpa using hp
  | some l =>
    rw [hl] at hp
    simpa using hp

theorem mutationLoop_append {Entry : Type}
    (Mutate : Option Entry → Option SignedKV → Except Error Bytes)
    (FromLeafValue : Bytes → Except Error (Option Entry))
    (lm : GoMap Bytes MapLeaf) (a b : List (Option SignedKV)) (r : GoMap Bytes MapLeaf) :
    mutationLoop Mutate FromLeafValue lm r (a ++ b) =
      mutationLoop Mutate FromLeafValue lm (mutationLoop Mutate FromLeafValue lm r a) b := by
  induction a generalizing r with
  | nil => rfl
  | cons m rest ih =>
    rw [List.cons_append]
    simp only [mutationLoop]
    exact ih _

theorem applyMutations_drop_rejected {Entry : Type}
    (Mutate : Option Entry → Option SignedKV → Except Error Bytes)
    (FromLeafValue : Bytes → Except Error (Option Entry))
    (leaves : List MapLeaf) (pre post : List (Option SignedKV)) (x : Option SignedKV)
    (hx : ¬ Accepted Mutate FromLeafValue leaves x) :
    applyMutations Mutate FromLeafValue (pre ++ x :: post) (leaves.map some) =
      applyMutations Mutate FromLeafValue (pre ++ post) (leaves.map some) := by
  obtain ⟨lm, h1, h2⟩ := leafMapLoop_some leaves []
  have hlm : ∀ k, GoMap.get k lm = preBatchLeaf leaves k := by
    intro k; rw [h2 k]; simp [GoMap.get]
  have hnone : newLeaf? Mutate FromLeafValue leaves x = none := by
    cases hn : newLeaf? Mutate FromLeafValue leaves x with
    | none => rfl
    | some l =>
      obtain ⟨old, v, h4, h5, _⟩ := newLeaf?_eq_some Mutate FromLeafValue leaves x l hn
      exact absurd ⟨v, old, h4, h5⟩ hx
  simp only [applyMutations, h1, mutationLoop_append, mutationLoop]
  rw [applyStep_eq Mutate FromLeafValue leaves lm hlm, hnone]

/-- C1. For every batch, every set of input leaves and every canonical key
`k` that has a mutation accepted by `Mutate`, `applyMutations` returns, with a
nil error, a slice that holds exactly one leaf whose index canonicalises to
`k`, in whatever order the map is ranged over. That leaf carries the key of
the last accepted mutation `m` for `k` in input order and the value
`Mutate(old, m)`, where `old` is the pre-batch value of `k` decoded from the
input leaves (nil when `k` has no input leaf); since it is the only leaf for
`k`, no value produced by an earlier mutation of the batch is in the
output. -/
theorem applyMutations_last_accepted_wins {Entry : Type}
    (Mutate : Option Entry → Option SignedKV → Except Error Bytes)
    (FromLeafValue : Bytes → Except Error (Option Entry))
    (mutations : List (Option SignedKV)) (leaves : List MapLeaf) (k : Bytes)
    (h : ∃ m ∈ mutations, toArray (GetKey (GetKeyValue m)) = k ∧
      Accepted Mutate FromLeafValue leaves m) :
    ∃ out, applyMutations Mutate FromLeafValue mutations (leaves.map some) = some (out, none) ∧
      ∀ ret : List MapLeaf, ret.Perm out →
        ∃ pre m post old v, mutations = pre ++ m :: post ∧
          toArray (GetKey (GetKeyValue m)) = k ∧
          (∀ n ∈ post, toArray (GetKey (GetKeyValue n)) = k →
            ¬ Accepted Mutate FromLeafValue leaves n) ∧
          preBatchValue FromLeafValue leaves k = .ok old ∧ Mutate old m = .ok v ∧
          ret.filter (fun l => toArray l.Index = k) =
            [{ Index := GetKey (GetKeyValue m), LeafHash := [], LeafValue := v,
               ExtraData := [] }] := by
  obtain ⟨out, h1, h2⟩ := applyMutations_eq Mutate FromLeafValue mutations leaves
  refine ⟨out, h1, ?_⟩
  intro ret hret
  have h3 := h2 ret hret k
  cases hl : lastNew Mutate FromLeafValue leaves k mutations with
  | none =>
    obtain ⟨m, hm, hk, ha⟩ := h
    exact absurd ha (lastNew_eq_none Mutate FromLeafValue leaves k mutations hl m hm hk)
  | some l =>
    obtain ⟨pre, m, post, old, v, e1, e2, e3, e4, e5, e6⟩ :=
      lastNew_eq_some Mutate FromLeafValue leaves k mutations l hl
    rw [hl, e6] at h3
    exact ⟨pre, m, post, old, v, e1, e2, e3, e4, e5, h3⟩

theorem applyMutations_last_accepted_wins_witness :
    (∃ m ∈ exampleBatch, toArray (GetKey (GetKeyValue m)) = toArray [65] ∧
      Accepted exampleMutate exampleFromLeafValue [] m) ∧
    ∃ out, applyMutations exampleMutate exampleFromLeafValue exampleBatch
        (([] : List MapLeaf).map some) = some (out, none) ∧
      ∀ ret : List MapLeaf, ret.Perm out →
        ∃ pre m post old v, exampleBatch = pre ++ m :: post ∧
          toArray (GetKey (GetKeyValue m)) = toArray [65] ∧
          (∀ n ∈ post, toArray (GetKey (GetKeyValue n)) = toArray [65] →
            ¬ Accepted exampleMutate exampleFromLeafValue [] n) ∧
          preBatchValue exampleFromLeafValue [] (toArray [65]) = .ok old ∧
          exampleMutate old m = .ok v ∧
          ret.filter (fun l => toArray l.Index = toArray [65]) =
            [{ Index := GetKey (GetKeyValue m), LeafHash := [], LeafValue := v,
               ExtraData := [] }] :=
  have hyp : ∃ m ∈ exampleBatch, toArray (GetKey (GetKeyValue m)) = toArray [65] ∧
      Accepted exampleMutate exampleFromLeafValue [] m :=
    ⟨exampleMutation [65] [1], by simp [exampleBatch], rfl, [1], none, rfl, rfl⟩
  ⟨hyp, applyMutations_last_accepted_wins exampleMutate exampleFromLeafValue exampleBatch []
    (toArray [65]) hyp⟩

theorem lastNew_isSome_iff {Entry : Type}
    (Mutate : Option Entry → Option SignedKV → Except Error Bytes)
    (FromLeafValue : Bytes → Except Error (Option Entry))
    (leaves : List MapLeaf) (k : Bytes) (ms : List (Option SignedKV)) :
    (∃ l, lastNew Mutate FromLeafValue leaves k ms = some l) ↔
      ∃ m ∈ ms, toArray (GetKey (GetKeyValue m)) = k ∧
        Accepted Mutate FromLeafValue leaves m := by
  constructor
  · rintro ⟨l, hl⟩
    obtain ⟨pre, m, post, old, v, e1, e2, _, e4, e5, _⟩ :=
      lastNew_eq_some Mutate FromLeafValue leaves k ms l hl
    refine ⟨m, by rw [e1]; simp, e2, v, old, ?_, e5⟩
    rw [e2]; exact e4
  · rintro ⟨m, hm, hk, ha⟩
    cases hl : lastNew Mutate FromLeafValue leaves k ms with
    | some l => exact ⟨l, rfl⟩
    | none => exact absurd ha (lastNew_eq_none Mutate FromLeafValue leaves k ms hl m hm hk)

/-- C2. `applyMutations` returns a nil error whatever the mutator rejects.
The canonical keys of the leaves it returns are exactly the canonical keys
that have a mutation accepted by `Mutate`, so a key whose mutations are all
rejected has no leaf; and taking a rejected mutation out of the batch does
not change the result, so a rejected mutation neither removes nor alters the
leaf of any key. -/
theorem applyMutations_drops_only_rejected {Entry : Type}
    (Mutate : Option Entry → Option SignedKV → Except Error Bytes)
    (FromLeafValue : Bytes → Except Error (Option Entry))
    (mutations : List (Option SignedKV)) (leaves : List MapLeaf) :
    ∃ out, applyMutations Mutate FromLeafValue mutations (leaves.map some) = some (out, none) ∧
      (∀ ret : List MapLeaf, ret.Perm out → ∀ k,
        (∃ l ∈ ret, toArray l.Index = k) ↔
          ∃ m ∈ mutations, toArray (GetKey (GetKeyValue m)) = k ∧
            Accepted Mutate FromLeafValue leaves m) ∧
      ∀ pre x post, mutations = pre ++ x :: post →
        ¬ Accepted Mutate FromLeafValue leaves x →
        applyMutations Mutate FromLeafValue (pre ++ post) (leaves.map some) = some (out, none) := by
  obtain ⟨out, h1, h2⟩ := applyMutations_eq Mutate FromLeafValue mutations leaves
  refine ⟨out, h1, ?_, ?_⟩
  · intro ret hret k
    rw [← lastNew_isSome_iff]
    have h3 := h2 ret hret k
    constructor
    · rintro ⟨l, hl, hk⟩
      have hmem : l ∈ ret.filter (fun l => toArray l.Index = k) := by
        simp [List.mem_filter, hl, hk]
      rw [h3] at hmem
      exact ⟨l, by simpa using hmem⟩
    · rintro ⟨l, hl⟩
      have hmem : l ∈ ret.filter (fun l => toArray l.Index = k) := by
        rw [h3, hl]; simp
      rw [List.mem_filter] at hmem
      exact ⟨l, hmem.1, by simpa using hmem.2⟩
  · intro pre x post hm hx
    rw [← applyMutations_drop_rejected Mutate FromLeafValue leaves pre post x hx, ← hm]
    exact h1

theorem applyMutations_drops_only_rejected_witness :
    ¬ Accepted exampleMutate exampleFromLeafValue [] (exampleMutation [67] []) ∧
    ∃ out, applyMutations exampleMutate exampleFromLeafValue exampleBatch
        (([] : List MapLeaf).map some) = some (out, none) ∧
      applyMutations exampleMutate exampleFromLeafValue
        ([exampleMutation [65] [1], exampleMutation [65] [2], exampleMutation [66] [3]] ++ [])
        (([] : List MapLeaf).map some) = some (out, none) :=
  have hx : ¬ Accepted exampleMutate exampleFromLeafValue [] (exampleMutation [67] []) := by
    rintro ⟨v, old, _, h⟩
    simp [exampleMutate, exampleMutation, GetKeyValue] at h
  match applyMutations_drops_only_rejected exampleMutate exampleFromLeafValue exampleBatch [] with
  | ⟨out, h1, _, h3⟩ => ⟨hx, out, h1, h3 _ _ [] rfl hx⟩

/-! ## The result store -/

theorem Storage.latest_runSets (calls : List SetCall) (s : Storage) :
    (runSets s calls).latest = ((succeededEpochs s calls).getLast?).getD s.latest := by
  induction calls generalizing s with
  | nil => simp [runSets, succeededEpochs]
  | cons c rest ih =>
    simp only [runSets, succeededEpochs]
    rw [ih]
    unfold Storage.Set
    cases hg : GoMap.get c.epoch s.store with
    | some r => simp
    | none =>
      simp [List.getLast?_cons]

theorem highestEpoch_of_sorted (es : List Int) (h : es.Pairwise (· ≤ ·)) :
    highestEpoch es = es.getLast? := by
  induction es with
  | nil => rfl
  | cons e rest ih =>
    rw [List.pairwise_cons] at h
    have ih1 := ih h.2
    rw [List.getLast?_cons]
    simp only [highestEpoch, ih1]
    cases hl : rest.getLast? with
    | none => simp
    | some x =>
      have hx : e ≤ x := h.1 x (List.mem_of_getLast?_eq_some hl)
      simp [hx]

theorem Storage.get_runSets (calls : List SetCall) (s : Storage) (e : Int) :
    GoMap.get e (runSets s calls).store =
      (GoMap.get e s.store).or ((calls.find? fun c => c.epoch = e).map SetCall.result) := by
  induction calls generalizing s with
  | nil => simp [runSets]
  | cons c rest ih =>
    simp only [runSets]
    rw [ih]
    unfold Storage.Set
    cases hg : GoMap.get c.epoch s.store with
    | some r =>
      simp only
      by_cases hc : c.epoch = e
      · subst hc
        simp [hg]
      · simp [List.find?_cons, hc]
    | none =>
      simp only
      by_cases hc : c.epoch = e
      · subst hc
        simp [GoMap.get_set_self, hg, List.find?_cons, SetCall.result]
      · rw [GoMap.get_set_of_ne _ _ _ _ hc]
        simp [List.find?_cons, hc]

/-- C3. In the in-memory result store, `Set` for an epoch that is already
present returns the `ErrAlreadyStored` of its package and leaves the store as
it was: the store value is the same, so `Get` answers the same for every
epoch, that one included, and `LatestEpoch` is the same. -/
theorem Set_existing_epoch_unchanged (s : Storage) (epoch seenNanos : Int)
    (smr : Option SignedMapRoot) (response : Option GetMutationsResponse)
    (errorList : List Error) (h : GoMap.get epoch s.store ≠ none) :
    (Storage.Set s epoch seenNanos smr response errorList).2 = some Storage.ErrAlreadyStored ∧
    (Storage.Set s epoch seenNanos smr response errorList).1 = s ∧
    (∀ e, Storage.Get (Storage.Set s epoch seenNanos smr response errorList).1 e =
      Storage.Get s e) ∧
    Storage.LatestEpoch (Storage.Set s epoch seenNanos smr response errorList).1 =
      Storage.LatestEpoch s := by
  have hs : Storage.Set s epoch seenNanos smr response errorList =
      (s, some Storage.ErrAlreadyStored) := by
    unfold Storage.Set
    cases hg : GoMap.get epoch s.store with
    | none => exact absurd hg h
    | some r => rfl
  rw [hs]
  exact ⟨rfl, rfl, fun _ => rfl, rfl⟩

theorem Set_existing_epoch_unchanged_witness :
    GoMap.get 5 (runSets Storage.New [exampleSet 5]).store ≠ none ∧
    (Storage.Set (runSets Storage.New [exampleSet 5]) 5 7 none none
        [Error.other "failed"]).2 = some Storage.ErrAlreadyStored ∧
    (Storage.Set (runSets Storage.New [exampleSet 5]) 5 7 none none
        [Error.other "failed"]).1 = runSets Storage.New [exampleSet 5] :=
  have h := Set_existing_epoch_unchanged (runSets Storage.New [exampleSet 5]) 5 7 none none
    [Error.other "failed"] (by decide)
  ⟨by decide, h.1, h.2.1⟩

/-- C4, as stated, fails: after a successful `Set` of epoch 5 and then a
successful `Set` of epoch 3, `LatestEpoch` is 3 while the highest epoch that
was stored is 5. -/
theorem LatestEpoch_lowered_by_lower_epoch :
    succeededEpochs Storage.New [exampleSet 5, exampleSet 3] = [5, 3] ∧
    Storage.LatestEpoch (runSets Storage.New [exampleSet 5, exampleSet 3]) = 3 ∧
    highestEpoch (succeededEpochs Storage.New [exampleSet 5, exampleSet 3]) = some 5 ∧
    ¬ LatestIsHighest [exampleSet 5, exampleSet 3] := by
  decide

/-- C4, amended. After any sequence of `Set` calls on a new store,
`LatestEpoch` is the epoch of the last call that succeeded, and 0 when none
succeeded; it is the highest epoch stored whenever the calls that succeed come
in non-decreasing epoch order. -/
theorem LatestEpoch_is_last_stored (calls : List SetCall) :
    Storage.LatestEpoch (runSets Storage.New calls) =
      ((succeededEpochs Storage.New calls).getLast?).getD 0 ∧
    ((succeededEpochs Storage.New calls).Pairwise (· ≤ ·) → LatestIsHighest calls) := by
  have h := Storage.latest_runSets calls Storage.New
  refine ⟨h, ?_⟩
  intro hs
  unfold LatestIsHighest
  rw [highestEpoch_of_sorted _ hs]
  exact h

theorem LatestEpoch_is_last_stored_witness :
    Storage.LatestEpoch (runSets Storage.New [exampleSet 3, exampleSet 5, exampleSet 3]) =
      ((succeededEpochs Storage.New [exampleSet 3, exampleSet 5, exampleSet 3]).getLast?).getD 0 ∧
    (succeededEpochs Storage.New [exampleSet 3, exampleSet 5, exampleSet 3]).Pairwise (· ≤ ·) ∧
    LatestIsHighest [exampleSet 3, exampleSet 5, exampleSet 3] :=
  ⟨(LatestEpoch_is_last_stored [exampleSet 3, exampleSet 5, exampleSet 3]).1, by decide,
    (LatestEpoch_is_last_stored [exampleSet 3, exampleSet 5, exampleSet 3]).2 (by decide)⟩

/-- C5. After any sequence of `Set` calls on a new store, `Get` for an epoch
that no call named returns no result and the `ErrNotFound` of the package;
for any other epoch it returns no error and a result whose `Smr`, `Seen`,
`Errors` and `Response` are the arguments of the first call for that epoch. -/
theorem Get_returns_first_Set (calls : List SetCall) (e : Int) :
    Storage.Get (runSets Storage.New calls) e =
      match calls.find? fun c => c.epoch = e with
      | none => (none, some Storage.ErrNotFound)
      | some c =>
        (some { Smr := c.smr, Seen := c.seenNanos, Errors := c.errorList,
                Response := c.response }, none) := by
  unfold Storage.Get
  rw [Storage.get_runSets]
  cases calls.find? fun c => c.epoch = e with
  | none => simp [Storage.New, GoMap.get]
  | some c => simp [Storage.New, GoMap.get, SetCall.result]

/-! ## The timing controller -/

theorem force_test_exact (minElapsed maxElapsed now last : Int)
    (h0 : 0 < minElapsed) (h1 : minElapsed ≤ maxElapsed)
    (h2 : minElapsed + maxElapsed ≤ maxInt64) (hd : now - last ≤ maxElapsed) :
    maxElapsed ≤ addDuration (Time.Sub now last) minElapsed ↔ maxElapsed ≤ now - last + minElapsed := by
  unfold addDuration wrapInt64 Time.Sub maxInt64 minInt64 at *
  split_ifs <;> omega

theorem tickLoop_in_time (minElapsed maxElapsed : Int)
    (h0 : 0 < minElapsed) (h1 : minElapsed ≤ maxElapsed)
    (h2 : minElapsed + maxElapsed ≤ maxInt64) (ticks : List Int) (last prev : Int)
    (ht : TicksWithin minElapsed prev ticks) (hp : prev - last ≤ maxElapsed - minElapsed) :
    ∀ d ∈ tickLoop minElapsed maxElapsed last ticks, DecisionInTime minElapsed maxElapsed d := by
  induction ticks generalizing last prev with
  | nil => intro d hd; simp [tickLoop] at hd
  | cons now rest ih =>
    obtain ⟨hn, hrest⟩ := ht
    have hd : now - last ≤ maxElapsed := by omega
    have hiff := force_test_exact minElapsed maxElapsed now last h0 h1 h2 hd
    intro d hmem
    unfold tickLoop at hmem
    by_cases hc : maxElapsed ≤ addDuration (Time.Sub now last) minElapsed
    · rw [if_pos hc] at hmem
      rcases List.mem_cons.mp hmem with rfl | hmem1
      · exact ⟨fun h => by simp at h, fun _ => hd⟩
      · exact ih now now hrest (by omega) d hmem1
    · rw [if_neg hc] at hmem
      have hlt : now - last < maxElapsed - minElapsed := by
        have := mt hiff.mpr hc
        omega
      rcases List.mem_cons.mp hmem with rfl | hmem1
      · exact ⟨fun _ => hlt, fun h => by simp at h⟩
      · exact ih last now hrest (by omega) d hmem1

/-- C6, as stated, fails when `minElapsed + maxElapsed` overflows `int64`.
With both durations at the largest value of `time.Duration`, `last` and the
start at instant 0 and ticks at 1 ns and at 2^63 ns, all hypotheses of the
claim hold; the start-up test forces an epoch, and from then on
`now.Sub(last) + minElapsed` wraps around to a negative number, so both ticks
are answered false: the first lies 1 ns after `last`, which is not less than
`maxElapsed - minElapsed = 0`, and the second lies more than `maxElapsed`
after `last`. -/
theorem genEpochTicks_overflow_never_forces :
    (0 < maxInt64 ∧ maxInt64 ≤ maxInt64 ∧ (0 : Int) - 0 ≤ maxInt64 ∧
      TicksWithin maxInt64 0 [1, 9223372036854775808]) ∧
    genEpochTicks (fun _ => 0) 0 [1, 9223372036854775808] maxInt64 maxInt64 =
      [{ force := true, now := 0, last := 0 }, { force := false, now := 1, last := 0 },
       { force := false, now := 9223372036854775808, last := 0 }] ∧
    ¬ (∀ d ∈ genEpochTicks (fun _ => 0) 0 [1, 9223372036854775808] maxInt64 maxInt64,
        DecisionInTime maxInt64 maxInt64 d) ∧
    maxInt64 < 9223372036854775808 - 0 := by
  decide

theorem tickLoop_now (minElapsed maxElapsed : Int) (ticks : List Int) (last : Int) :
    (tickLoop minElapsed maxElapsed last ticks).map Decision.now = ticks := by
  induction ticks generalizing last with
  | nil => rfl
  | cons now rest ih =>
    unfold tickLoop
    split <;> simp [ih]

theorem tickLoop_lastTracked (minElapsed maxElapsed : Int) (ticks : List Int) (last : Int) :
    LastTracked last (tickLoop minElapsed maxElapsed last ticks) := by
  induction ticks generalizing last with
  | nil => trivial
  | cons now rest ih =>
    unfold tickLoop
    split
    · exact ⟨rfl, by simpa using ih now⟩
    · exact ⟨rfl, by simpa using ih last⟩

theorem tickLoop_forced_late (minElapsed maxElapsed : Int)
    (h0 : 0 < minElapsed) (h1 : minElapsed ≤ maxElapsed)
    (h2 : minElapsed + maxElapsed ≤ maxInt64) (ticks : List Int) (last prev : Int)
    (ht : TicksWithin minElapsed prev ticks) (hp : prev - last ≤ maxElapsed - minElapsed) :
    ∀ d ∈ tickLoop minElapsed maxElapsed last ticks,
      d.force = true → maxElapsed - minElapsed ≤ d.now - d.last := by
  induction ticks generalizing last prev with
  | nil => intro d hd; simp [tickLoop] at hd
  | cons now rest ih =>
    obtain ⟨hn, hrest⟩ := ht
    have hd : now - last ≤ maxElapsed := by omega
    have hiff := force_test_exact minElapsed maxElapsed now last h0 h1 h2 hd
    intro d hmem
    unfold tickLoop at hmem
    by_cases hc : maxElapsed ≤ addDuration (Time.Sub now last) minElapsed
    · rw [if_pos hc] at hmem
      have := hiff.mp hc
      rcases List.mem_cons.mp hmem with rfl | hmem1
      · intro _; show maxElapsed - minElapsed ≤ now - last; omega
      · exact ih now now hrest (by omega) d hmem1
    · rw [if_neg hc] at hmem
      have := mt hiff.mpr hc
      rcases List.mem_cons.mp hmem with rfl | hmem1
      · intro h; simp at h
      · exact ih last now hrest (by omega) d hmem1

theorem tickLoop_window (minElapsed maxElapsed : Int)
    (h0 : 0 < minElapsed) (h1 : minElapsed ≤ maxElapsed)
    (h2 : minElapsed + maxElapsed ≤ maxInt64) (ticks : List Int) (last prev : Int)
    (ht : TicksWithin minElapsed prev ticks) (hp : prev - last ≤ maxElapsed - minElapsed)
    (e : Decision) (he : e ∈ tickLoop minElapsed maxElapsed last ticks)
    (hlate : maxElapsed - minElapsed ≤ e.now - last) :
    ∃ f ∈ tickLoop minElapsed maxElapsed last ticks,
      f.force = true ∧ f.last = last ∧ f.now - last ≤ maxElapsed := by
  induction ticks generalizing prev with
  | nil => simp [tickLoop] at he
  | cons now rest ih =>
    obtain ⟨hn, hrest⟩ := ht
    have hd : now - last ≤ maxElapsed := by omega
    have hiff := force_test_exact minElapsed maxElapsed now last h0 h1 h2 hd
    unfold tickLoop at he ⊢
    by_cases hc : maxElapsed ≤ addDuration (Time.Sub now last) minElapsed
    · rw [if_pos hc]
      exact ⟨_, List.mem_cons_self _ _, rfl, rfl, hd⟩
    · rw [if_neg hc] at he ⊢
      have hlt := mt hiff.mpr hc
      rcases List.mem_cons.mp he with rfl | he1
      · exfalso
        have : maxElapsed - minElapsed ≤ now - last := hlate
        omega
      · obtain ⟨f, hf, hf1, hf2, hf3⟩ := ih now hrest (by omega) he1
        exact ⟨f, List.mem_cons_of_mem _ hf, hf1, hf2, hf3⟩

theorem tickLoop_suffix_window (minElapsed maxElapsed : Int)
    (h0 : 0 < minElapsed) (h1 : minElapsed ≤ maxElapsed)
    (h2 : minElapsed + maxElapsed ≤ maxInt64) (ticks : List Int) (last prev : Int)
    (ht : TicksWithin minElapsed prev ticks) (hp : prev - last ≤ maxElapsed - minElapsed)
    (pre : List Decision) (d : Decision) (post : List Decision)
    (hsplit : tickLoop minElapsed maxElapsed last ticks = pre ++ d :: post)
    (hlate : ∃ e ∈ d :: post, maxElapsed - minElapsed ≤ e.now - d.last) :
    ∃ f ∈ d :: post, f.force = true ∧ f.last = d.last ∧ f.now - d.last ≤ maxElapsed := by
  induction ticks generalizing last prev pre with
  | nil =>
    have := congrArg List.length hsplit
    simp [tickLoop] at this
    omega
  | cons now rest ih =>
    cases pre with
    | nil =>
      have hlast : d.last = last := by
        have h := hsplit
        unfold tickLoop at h
        split at h
        · simp only [List.nil_append, List.cons.injEq] at h; rw [← h.1]
        · simp only [List.nil_append, List.cons.injEq] at h; rw [← h.1]
      obtain ⟨e, he, hl⟩ := hlate
      rw [List.nil_append] at hsplit
      rw [hlast] at hl ⊢
      rw [← hsplit] at he ⊢
      exact tickLoop_window minElapsed maxElapsed h0 h1 h2 (now :: rest) last prev ht hp e he hl
    | cons p pre1 =>
      obtain ⟨hn, hrest⟩ := ht
      have hd : now - last ≤ maxElapsed := by omega
      have hiff := force_test_exact minElapsed maxElapsed now last h0 h1 h2 hd
      unfold tickLoop at hsplit
      by_cases hc : maxElapsed ≤ addDuration (Time.Sub now last) minElapsed
      · rw [if_pos hc] at hsplit
        simp only [List.cons_append, List.cons.injEq] at hsplit
        exact ih now now hrest (by omega) pre1 hsplit.2
      · rw [if_neg hc] at hsplit
        have hlt := mt hiff.mpr hc
        simp only [List.cons_append, List.cons.injEq] at hsplit
        exact ih last now hrest (by omega) pre1 hsplit.2

/-- C6, amended. Let `0 < minElapsed <= maxElapsed` with
`minElapsed + maxElapsed` within `int64`, let the first reading of the clock
at start-up be at most `maxElapsed` after the initial `last`, and let the
ticks come at most `minElapsed` apart, the first at most `minElapsed` after
each of the two start-up readings. Then:

* every decision is in time: a tick answered false lies strictly less than
  `maxElapsed - minElapsed` after the current `last`, a forced epoch is decided
  at most `maxElapsed`, and not less than `maxElapsed - minElapsed`, after the
  value `last` had before it;
* every tick is answered, in order: the controller sends a forced epoch at
  start-up exactly when the start is `maxElapsed - minElapsed` or more after
  the initial `last`, and then one decision for each tick, at the instant of
  the tick, with `last` being the initial value until an epoch is forced and
  the instant of the last forced epoch afterwards (the second reading of the
  clock after the start-up one);
* no more than `maxElapsed` elapses between `last` and the next forced epoch:
  from any decision on, as soon as the ticks reach `maxElapsed - minElapsed`
  after the current `last`, an epoch has been forced with that `last`, at most
  `maxElapsed` after it. -/
theorem genEpochTicks_in_time (t : Nat → Int) (last : Int) (minTick : List Int)
    (minElapsed maxElapsed : Int)
    (h0 : 0 < minElapsed) (h1 : minElapsed ≤ maxElapsed)
    (h2 : minElapsed + maxElapsed ≤ maxInt64)
    (hs : t 0 - last ≤ maxElapsed)
    (ht0 : TicksWithin minElapsed (t 0) minTick) (ht1 : TicksWithin minElapsed (t 1) minTick) :
    (∀ d ∈ genEpochTicks t last minTick minElapsed maxElapsed,
      DecisionInTime minElapsed maxElapsed d ∧
        (d.force = true → maxElapsed - minElapsed ≤ d.now - d.last)) ∧
    (if maxElapsed - minElapsed ≤ t 0 - last then
        ∃ rest, genEpochTicks t last minTick minElapsed maxElapsed =
            { force := true, now := t 0, last := last } :: rest ∧
          rest.map Decision.now = minTick ∧ LastTracked (t 1) rest
      else
        (genEpochTicks t last minTick minElapsed maxElapsed).map Decision.now = minTick ∧
          LastTracked last (genEpochTicks t last minTick minElapsed maxElapsed)) ∧
    (∀ pre d post, genEpochTicks t last minTick minElapsed maxElapsed = pre ++ d :: post →
      (∃ e ∈ d :: post, maxElapsed - minElapsed ≤ e.now - d.last) →
      ∃ f ∈ d :: post, f.force = true ∧ f.last = d.last ∧ f.now - d.last ≤ maxElapsed) := by
  have hiff := force_test_exact minElapsed maxElapsed (t 0) last h0 h1 h2 hs
  by_cases hc : maxElapsed ≤ addDuration (Time.Sub (t 0) last) minElapsed
  · have hstart : maxElapsed - minElapsed ≤ t 0 - last := by
      have := hiff.mp hc
      omega
    have hgen : genEpochTicks t last minTick minElapsed maxElapsed =
        { force := true, now := t 0, last := last } ::
          tickLoop minElapsed maxElapsed (t 1) minTick := by
      unfold genEpochTicks
      rw [if_pos hc]
    rw [hgen, if_pos hstart]
    refine ⟨?_, ⟨_, rfl, tickLoop_now _ _ _ _, tickLoop_lastTracked _ _ _ _⟩, ?_⟩
    · intro d hmem
      rcases List.mem_cons.mp hmem with rfl | hmem1
      · exact ⟨⟨fun h => by simp at h, fun _ => hs⟩, fun _ => hstart⟩
      · exact ⟨tickLoop_in_time minElapsed maxElapsed h0 h1 h2 minTick (t 1) (t 1) ht1
            (by omega) d hmem1,
          tickLoop_forced_late minElapsed maxElapsed h0 h1 h2 minTick (t 1) (t 1) ht1
            (by omega) d hmem1⟩
    · intro pre d post hsplit hlate
      cases pre with
      | nil =>
        simp only [List.nil_append, List.cons.injEq] at hsplit
        refine ⟨d, List.mem_cons_self _ _, ?_, rfl, ?_⟩
        · rw [← hsplit.1]
        · rw [← hsplit.1]; exact hs
      | cons p pre1 =>
        simp only [List.cons_append, List.cons.injEq] at hsplit
        exact tickLoop_suffix_window minElapsed maxElapsed h0 h1 h2 minTick (t 1) (t 1) ht1
          (by omega) pre1 d post hsplit.2 hlate
  · have hstart : ¬ maxElapsed - minElapsed ≤ t 0 - last := by
      have := mt hiff.mpr hc
      omega
    have hgen : genEpochTicks t last minTick minElapsed maxElapsed =
        tickLoop minElapsed maxElapsed last minTick := by
      unfold genEpochTicks
      rw [if_neg hc]
    rw [hgen, if_neg hstart]
    refine ⟨?_, ⟨tickLoop_now _ _ _ _, tickLoop_lastTracked _ _ _ _⟩, ?_⟩
    · intro d hmem
      exact ⟨tickLoop_in_time minElapsed maxElapsed h0 h1 h2 minTick last (t 0) ht0
            (by omega) d hmem,
          tickLoop_forced_late minElapsed maxElapsed h0 h1 h2 minTick last (t 0) ht0
            (by omega) d hmem⟩
    · intro pre d post hsplit hlate
      exact tickLoop_suffix_window minElapsed maxElapsed h0 h1 h2 minTick last (t 0) ht0
        (by omega) pre d post hsplit hlate

theorem genEpochTicks_in_time_witness :
    (genEpochTicks (fun _ => 0) 0 exampleTicks 1000000000 5000000000).map Decision.force =
      [false, false, false, true, false, false] ∧
    (genEpochTicks (fun _ => 0) 0 exampleTicks 1000000000 5000000000).map Decision.now =
      exampleTicks ∧
    (∀ d ∈ genEpochTicks (fun _ => 0) 0 exampleTicks 1000000000 5000000000,
      DecisionInTime 1000000000 5000000000 d) ∧
    ∃ f ∈ genEpochTicks (fun _ => 0) 0 exampleTicks 1000000000 5000000000,
      f.force = true ∧ f.last = 0 ∧ f.now - 0 ≤ 5000000000 := by
  have h := genEpochTicks_in_time (fun _ => 0) 0 exampleTicks 1000000000 5000000000
    (by decide) (by decide) (by decide) (by decide) (by decide) (by decide)
  have hsplit : genEpochTicks (fun _ => 0) 0 exampleTicks 1000000000 5000000000 =
      [] ++ { force := false, now := 1000000000, last := 0 } ::
        tickLoop 1000000000 5000000000 0 exampleTicks.tail := by decide
  refine ⟨by decide, by decide, fun d hd => (h.1 d hd).1, ?_⟩
  obtain ⟨f, hf, hf1, hf2, hf3⟩ := h.2.2 [] _ _ hsplit
    ⟨{ force := true, now := 4000000000, last := 0 }, by decide, by decide⟩
  exact ⟨f, by rw [hsplit]; exact hf, hf1, hf2, hf3⟩

/-! ## The sequencer -/

theorem collectLeaves_wellFormed (incs : List (Option MapLeafInclusion))
    (h : ∀ inc ∈ incs, ∃ i l, inc = some i ∧ i.Leaf = some l) :
    ∃ leaves : List MapLeaf, collectLeaves incs = some (leaves.map some) := by
  induction incs with
  | nil => exact ⟨[], rfl⟩
  | cons inc rest ih =>
    obtain ⟨i, l, h1, h2⟩ := h inc (List.mem_cons_self _ _)
    obtain ⟨leaves, h3⟩ := ih (fun x hx => h x (List.mem_cons_of_mem _ hx))
    refine ⟨l :: leaves, ?_⟩
    subst h1
    simp [collectLeaves, h3, h2]

theorem applyMutations_nil {Entry : Type}
    (Mutate : Option Entry → Option SignedKV → Except Error Bytes)
    (FromLeafValue : Bytes → Except Error (Option Entry)) (leaves : List MapLeaf) :
    applyMutations Mutate FromLeafValue [] (leaves.map some) = some ([], none) := by
  obtain ⟨lm, h1, _⟩ := leafMapLoop_some leaves []
  simp [applyMutations, h1, mutationLoop, GoMap.values]

theorem toInt64_toUint64 (x : Int) (h1 : minInt64 ≤ x) (h2 : x ≤ maxInt64) :
    toInt64 (toUint64 x) = x := by
  unfold toInt64 toUint64 wrapInt64
  unfold minInt64 at h1
  unfold maxInt64 at h2
  omega

theorem toInt64_of_lt (n : Nat) (h : n < 9223372036854775808) : toInt64 n = n := by
  unfold toInt64 wrapInt64
  omega

theorem queueLogLeaf_calls {W T Entry : Type} (s : Sequencer W T Entry)
    (smr : Option SignedMapRoot) (w : W) (mapID : Int) (leaves : List MapLeaf) (seq : Int)
    (err : Option Error) (w1 : W) (c : List Call)
    (h : queueLogLeaf s smr w = (err, w1, c)) :
    Call.SetLeaves mapID leaves seq ∉ c := by
  unfold queueLogLeaf at h
  cases hm : s.Marshal smr with
  | error e =>
    simp only [hm, Prod.mk.injEq] at h
    obtain ⟨_, _, rfl⟩ := h
    simp
  | ok smrJSON =>
    rcases hq : s.tlog.QueueLeaf s.logID smrJSON (s.Sum256 smrJSON) w with ⟨_ | e, w2⟩
    · simp only [hm, hq, Prod.mk.injEq] at h
      obtain ⟨_, _, rfl⟩ := h
      simp
    · simp only [hm, hq, Prod.mk.injEq] at h
      obtain ⟨_, _, rfl⟩ := h
      simp


/-- C7. When the map-head read and the mutation read (new transaction,
`ReadAll`, commit) succeed and `ReadAll` returns no mutation,
`CreateEpoch(false)` returns nil after exactly these four calls: it issues no
`GetLeaves`, no `SetLeaves`, no `QueueLeaf` and no write to the witness, and
the state of the services is the one the reads left, so neither the map nor
the log is written. -/
theorem CreateEpoch_unforced_empty {W T Entry : Type} (s : Sequencer W T Entry) (w w1 w2 w3 w4 : W)
    (root : Option SignedMapRoot) (txn : T) (maxSequence : Nat)
    (hroot : s.tmap.GetSignedMapRoot s.mapID w = (.ok root, w1))
    (htxn : s.factory.NewTxn w1 = (.ok txn, w2))
    (hread : s.mutations.ReadAll txn (toUint64 (GetHighestFullyCompletedSeq root)) w2 =
      (.ok (maxSequence, []), w3))
    (hcommit : s.factory.Commit txn w3 = (none, w4)) :
    CreateEpoch s false w =
      { outcome := .returned none, world := w4,
        calls := [.GetSignedMapRoot s.mapID, .NewTxn,
          .ReadAll (toUint64 (GetHighestFullyCompletedSeq root)), .Commit] } := by
  simp [CreateEpoch, newMutations, hroot, htxn, hread, hcommit]

theorem CreateEpoch_unforced_empty_witness :
    CreateEpoch (exampleSequencer 0 []) false (exampleRoot 5 64) =
      { outcome := .returned none, world := exampleRoot 5 64,
        calls := [.GetSignedMapRoot 65, .NewTxn, .ReadAll 5, .Commit] } :=
  CreateEpoch_unforced_empty (exampleSequencer 0 []) (exampleRoot 5 64) (exampleRoot 5 64)
    (exampleRoot 5 64) (exampleRoot 5 64) (exampleRoot 5 64) (some (exampleRoot 5 64)) () 0
    rfl rfl rfl rfl

/-- C8, as stated, fails: the high-water mark of the write is what the
mutation read returns, not what the map head carries. Here the head of the map
65 has the mark 5 and the revision 64, every call succeeds, and the read
returns no mutation and the maximum 0: the forced epoch writes an empty leaf
list tagged with 0, the new head has the revision 65 and the mark 0, and the
call returns nil (the witness key is made of the characters of 65 and 65, two
letters). -/
theorem CreateEpoch_forced_empty_resets_mark :
    GetHighestFullyCompletedSeq (some (exampleRoot 5 64)) = 5 ∧
    (CreateEpoch (exampleSequencer 0 []) true (exampleRoot 5 64)).outcome = .returned none ∧
    (CreateEpoch (exampleSequencer 0 []) true (exampleRoot 5 64)).calls =
      [.GetSignedMapRoot 65, .NewTxn, .ReadAll 5, .Commit, .GetLeaves 65 [] (-1),
       .SetLeaves 65 [] 0, .QueueLeaf 2 [1] [1], .WriteToBFTKV 65 65 [1]] ∧
    GetHighestFullyCompletedSeq
      (some (CreateEpoch (exampleSequencer 0 []) true (exampleRoot 5 64)).world) = 0 := by
  decide

/-- C8, amended. When every call succeeds (the `GetLeaves` response being
well formed) and `ReadAll` returns no mutation, `CreateEpoch(true)` still
calls `SetLeaves` with an empty leaf list and queues the map root it gets back
as a log leaf, then returns nil. The high-water mark of the write is the
maximum sequence number that `ReadAll` returned, converted to `int64`; it is
the mark of the map head read at the start when `ReadAll` returns that mark
as its maximum. -/
theorem CreateEpoch_forced_empty {W T Entry : Type} (s : Sequencer W T Entry)
    (w w1 w2 w3 w4 w5 w6 w7 w8 : W)
    (root setResp : Option SignedMapRoot) (txn : T) (maxSequence : Nat)
    (getResp : GetMapLeavesResponse) (smrJSON : Bytes)
    (hroot : s.tmap.GetSignedMapRoot s.mapID w = (.ok root, w1))
    (htxn : s.factory.NewTxn w1 = (.ok txn, w2))
    (hread : s.mutations.ReadAll txn (toUint64 (GetHighestFullyCompletedSeq root)) w2 =
      (.ok (maxSequence, []), w3))
    (hcommit : s.factory.Commit txn w3 = (none, w4))
    (hget : s.tmap.GetLeaves s.mapID [] (-1) w4 = (.ok (some getResp), w5))
    (hwf : WellFormedLeaves getResp)
    (hset : s.tmap.SetLeaves s.mapID [] (toInt64 maxSequence) w5 = (.ok setResp, w6))
    (hjson : s.Marshal setResp = .ok smrJSON)
    (hqueue : s.tlog.QueueLeaf s.logID smrJSON (s.Sum256 smrJSON) w6 = (none, w7))
    (hwrite : s.writeToBFTKV s.mapID (GetMapRevision setResp) (GetRootHash setResp) w7 =
      (true, w8)) :
    CreateEpoch s true w =
      { outcome := .returned none, world := w8,
        calls := [.GetSignedMapRoot s.mapID, .NewTxn,
          .ReadAll (toUint64 (GetHighestFullyCompletedSeq root)), .Commit,
          .GetLeaves s.mapID [] (-1),
          .SetLeaves s.mapID [] (toInt64 maxSequence),
          .QueueLeaf s.logID smrJSON (s.Sum256 smrJSON),
          .WriteToBFTKV s.mapID (GetMapRevision setResp) (GetRootHash setResp)] } ∧
    (maxSequence = toUint64 (GetHighestFullyCompletedSeq root) →
      minInt64 ≤ GetHighestFullyCompletedSeq root →
      GetHighestFullyCompletedSeq root ≤ maxInt64 →
      toInt64 maxSequence = GetHighestFullyCompletedSeq root) := by
  refine ⟨?_, fun h1 h2 h3 => by rw [h1]; exact toInt64_toUint64 _ h2 h3⟩
  obtain ⟨leaves, hl⟩ := collectLeaves_wellFormed _ hwf
  simp [CreateEpoch, newMutations, hroot, htxn, hread, hcommit, collectIndexes, hget, hl,
    applyMutations_nil, hset, queueLogLeaf, hjson, hqueue, hwrite]

theorem CreateEpoch_forced_empty_witness :
    CreateEpoch (exampleSequencer 5 []) true (exampleRoot 5 64) =
      { outcome := .returned none, world := exampleRoot 5 65,
        calls := [.GetSignedMapRoot 65, .NewTxn, .ReadAll 5, .Commit, .GetLeaves 65 [] (-1),
          .SetLeaves 65 [] 5, .QueueLeaf 2 [1] [1], .WriteToBFTKV 65 65 [1]] } ∧
    toInt64 5 = GetHighestFullyCompletedSeq (some (exampleRoot 5 64)) :=
  have h := CreateEpoch_forced_empty (exampleSequencer 5 []) (exampleRoot 5 64) (exampleRoot 5 64)
    (exampleRoot 5 64) (exampleRoot 5 64) (exampleRoot 5 64) (exampleRoot 5 64) (exampleRoot 5 65)
    (exampleRoot 5 65) (exampleRoot 5 65) (some (exampleRoot 5 64)) (some (exampleRoot 5 65)) () 5
    { MapLeafInclusion := [], MapRoot := none } [1]
    rfl rfl rfl rfl rfl (fun _ hinc => absurd hinc (List.not_mem_nil _)) rfl rfl rfl rfl
  ⟨h.1, h.2 rfl (by decide) (by decide)⟩

/-- C9, as stated, fails: a successful cycle can write a lower high-water
mark than the one of the head it read. Here the head of the map 65 has the
mark 7 and the revision 64, and the read returns no mutation and the maximum
0; the forced epoch tags its write with 0, leaves a head with the revision 65
and the mark 0, and returns nil (the witness key is made of the characters of
65 and 65, two letters). -/
theorem CreateEpoch_mark_can_decrease :
    (CreateEpoch (exampleSequencer 0 []) true (exampleRoot 7 64)).outcome = .returned none ∧
    Call.SetLeaves 65 [] 0 ∈ (CreateEpoch (exampleSequencer 0 []) true (exampleRoot 7 64)).calls ∧
    ¬ (GetHighestFullyCompletedSeq (some (exampleRoot 7 64)) ≤ 0) ∧
    GetHighestFullyCompletedSeq
        (some (CreateEpoch (exampleSequencer 0 []) true (exampleRoot 7 64)).world) <
      GetHighestFullyCompletedSeq (some (exampleRoot 7 64)) := by
  decide

/-- C9, amended. In every cycle of `CreateEpoch`, successful or not, in which
the head read and `ReadAll` succeed, the high-water mark of any `SetLeaves`
write is the maximum sequence number that `ReadAll` returned, converted from
`uint64` to `int64`. It is greater than or equal to the mark of the head read
at the start whenever that maximum is below 2^63 and not below the mark of
the head. -/
theorem CreateEpoch_tags_read_maximum {W T Entry : Type} (s : Sequencer W T Entry)
    (forceNewEpoch : Bool) (w w1 w2 w3 : W)
    (root : Option SignedMapRoot) (txn : T) (maxSequence : Nat)
    (mutations : List (Option SignedKV))
    (hroot : s.tmap.GetSignedMapRoot s.mapID w = (.ok root, w1))
    (htxn : s.factory.NewTxn w1 = (.ok txn, w2))
    (hread : s.mutations.ReadAll txn (toUint64 (GetHighestFullyCompletedSeq root)) w2 =
      (.ok (maxSequence, mutations), w3))
    (mapID : Int) (leaves : List MapLeaf) (seq : Int)
    (hmem : Call.SetLeaves mapID leaves seq ∈ (CreateEpoch s forceNewEpoch w).calls) :
    seq = toInt64 maxSequence ∧
      (maxSequence < 9223372036854775808 →
        GetHighestFullyCompletedSeq root ≤ (maxSequence : Int) →
        GetHighestFullyCompletedSeq root ≤ seq) := by
  have hseq : seq = toInt64 maxSequence := by
    revert hmem
    rcases hc : s.factory.Commit txn w3 with ⟨_ | err, w4⟩
    · simp only [CreateEpoch, newMutations, hroot, htxn, hread, hc]
      repeat' split
      all_goals first
        | simp_all; done
        | (have hno := queueLogLeaf_calls s _ _ mapID leaves seq _ _ _ (by assumption)
           simp_all)
    · simp [CreateEpoch, newMutations, hroot, htxn, hread, hc]
  refine ⟨hseq, ?_⟩
  intro h1 h2
  rw [hseq, toInt64_of_lt _ h1]
  exact h2

theorem CreateEpoch_tags_read_maximum_witness :
    Call.SetLeaves 65
        [{ Index := [65], LeafHash := [], LeafValue := [2], ExtraData := [] },
         { Index := [66], LeafHash := [], LeafValue := [3], ExtraData := [] }] 4 ∈
      (CreateEpoch (exampleSequencer 4 exampleBatch) false (exampleRoot 0 64)).calls ∧
    (CreateEpoch (exampleSequencer 4 exampleBatch) false (exampleRoot 0 64)).outcome =
      .returned none ∧
    (4 : Int) = toInt64 4 ∧ GetHighestFullyCompletedSeq (some (exampleRoot 0 64)) ≤ 4 :=
  have hmem : Call.SetLeaves 65
        [{ Index := [65], LeafHash := [], LeafValue := [2], ExtraData := [] },
         { Index := [66], LeafHash := [], LeafValue := [3], ExtraData := [] }] 4 ∈
      (CreateEpoch (exampleSequencer 4 exampleBatch) false (exampleRoot 0 64)).calls := by
    decide
  have h := CreateEpoch_tags_read_maximum (exampleSequencer 4 exampleBatch) false
    (exampleRoot 0 64) (exampleRoot 0 64) (exampleRoot 0 64) (exampleRoot 0 64)
    (some (exampleRoot 0 64)) () 4 exampleBatch rfl rfl rfl 65 _ 4 hmem
  ⟨hmem, by decide, h.1, h.2 (by decide) (by decide)⟩

/-! ## The monitor -/

/-- C10, on the code. When the verifier reports no failure and the signer
succeeds, `Process` hands the response itself to `Set`: with the in-memory
store and an epoch not stored yet, the result that `Get` returns afterwards
has `Response` equal to the original response, not nil. The claim, and the
comment on the field `Response`, say the response is kept only when a
verification step failed. -/
theorem Process_stores_response_on_success {W : Type} (m : Monitor Storage W)
    (resp : GetMutationsResponse) (seen : Int) (st : Storage) (w : W)
    (smr : Option SignedMapRoot)
    (hstore : m.store = Storage.ops)
    (hverify : m.verifyMutationsResponse resp = [])
    (hsign : m.signMapRoot resp = .ok smr)
    (hfresh : GoMap.get resp.Epoch st.store = none) :
    Storage.Get (Process m resp seen st w).store resp.Epoch =
      (some { Smr := smr, Seen := seen, Errors := [], Response := some resp }, none) := by
  have hset : m.store.Set st resp.Epoch seen smr (some resp) [] =
      ({ store := GoMap.set resp.Epoch
            { Smr := smr, Seen := seen, Response := some resp, Errors := [] } st.store,
         latest := resp.Epoch }, none) := by
    rw [hstore]
    simp [Storage.ops, Storage.Set, hfresh]
  unfold Process
  simp only [hverify, List.length_nil, if_true, hsign, hset]
  cases smr with
  | none => simp [Storage.Get, GoMap.get_set_self]
  | some r =>
    simp only
    split <;> simp [Storage.Get, GoMap.get_set_self]

theorem Process_stores_response_on_success_witness :
    exampleMonitor.verifyMutationsResponse exampleResponse = [] ∧
    (Process exampleMonitor exampleResponse 3 Storage.New ()).outcome = .returned none ∧
    Storage.Get (Process exampleMonitor exampleResponse 3 Storage.New ()).store 66 =
      (some { Smr := some (exampleRoot 4 66), Seen := 3, Errors := [],
              Response := some exampleResponse }, none) :=
  ⟨rfl, by decide,
    Process_stores_response_on_success exampleMonitor exampleResponse 3 Storage.New ()
      (some (exampleRoot 4 66)) rfl rfl rfl rfl⟩

/-- C11, on the code. When the verifier reports a failure, `Process` does not
sign, hands a nil map root to `Set`, and, once `Set` has returned nil, reads
`smr.MapId` through that nil pointer: the call crashes after the result has
been persisted instead of returning nil. -/
theorem Process_crashes_after_failed_verification {S W : Type} (m : Monitor S W)
    (resp : GetMutationsResponse) (seen : Int) (st st1 : S) (w : W)
    (hverify : m.verifyMutationsResponse resp ≠ [])
    (hset : m.store.Set st resp.Epoch seen none (some resp) (m.verifyMutationsResponse resp) =
      (st1, none)) :
    Process m resp seen st w = { outcome := .crashed, store := st1, witness := w } := by
  have hlen : ¬ (m.verifyMutationsResponse resp).length = 0 := by
    intro h
    exact hverify (List.length_eq_zero.mp h)
  unfold Process
  simp only [hlen, if_false, hset]

theorem Process_crashes_after_failed_verification_witness :
    exampleFailingMonitor.verifyMutationsResponse exampleResponse ≠ [] ∧
    Process exampleFailingMonitor exampleResponse 3 Storage.New () =
      { outcome := .crashed,
        store := (Storage.Set Storage.New 66 3 none (some exampleResponse)
          [Error.other "invalid map root signature"]).1,
        witness := () } ∧
    Storage.Get (Process exampleFailingMonitor exampleResponse 3 Storage.New ()).store 66 =
      (some { Smr := none, Seen := 3, Errors := [Error.other "invalid map root signature"],
              Response := some exampleResponse }, none) :=
  ⟨by decide,
    Process_crashes_after_failed_verification exampleFailingMonitor exampleResponse 3
      Storage.New _ () (by decide) rfl,
    by decide⟩

/-! ## The BFTKV-backed result store -/

/-- C12, on the code. The BFTKV-backed `Set` stores in the local store first
and asks the remote store afterwards. For an epoch that the local store does
not hold, with a client at hand, the call returns the `ErrAlreadyStored` of
`core/monitor/storage` when the remote read finds the key, and the error of
the remote write otherwise; and whatever it returns, it has stored the result
locally: `Get` for the epoch answered `ErrNotFound` before the call and
returns the new result after it, and `LatestEpoch` is the epoch of the call.
So a call that fails on the remote side does change the local store. -/
theorem bftkvStorage_Set_error_keeps_local_write {C : Type} (api : BftkvClient C)
    (text : Option GetMutationsResponse → Bytes) (s : bftkvStorage C) (c : C)
    (epoch seenNanos : Int) (smr : Option SignedMapRoot)
    (response : Option GetMutationsResponse) (errorList : List Error)
    (hlocal : GoMap.get epoch s.storage.store = none)
    (hclient : s.client = some c) :
    (bftkvStorage.Set api text s epoch seenNanos smr response errorList).2 =
      (match api.Read (bigEndian64 epoch) c with
        | (.ok _, _) => some CoreStorage.ErrAlreadyStored
        | (.error _, c1) => (api.Write (bigEndian64 epoch) (text response) c1).1) ∧
    bftkvStorage.Get s epoch = (none, some Storage.ErrNotFound) ∧
    bftkvStorage.Get
        (bftkvStorage.Set api text s epoch seenNanos smr response errorList).1 epoch =
      (some { Smr := smr, Seen := seenNanos, Errors := errorList, Response := response },
        none) ∧
    bftkvStorage.LatestEpoch
        (bftkvStorage.Set api text s epoch seenNanos smr response errorList).1 = epoch := by
  have hstore : (bftkvStorage.Set api text s epoch seenNanos smr response errorList).1.storage =
      { store := GoMap.set epoch
          { Smr := smr, Seen := seenNanos, Response := response, Errors := errorList }
          s.storage.store,
        latest := epoch } := by
    unfold bftkvStorage.Set Storage.Set
    simp only [hlocal, hclient]
    rcases api.Read (bigEndian64 epoch) c with ⟨r | v, c1⟩
    · simp only
    · simp only
  have herr : (bftkvStorage.Set api text s epoch seenNanos smr response errorList).2 =
      (match api.Read (bigEndian64 epoch) c with
        | (.ok _, _) => some CoreStorage.ErrAlreadyStored
        | (.error _, c1) => (api.Write (bigEndian64 epoch) (text response) c1).1) := by
    unfold bftkvStorage.Set Storage.Set
    simp only [hlocal, hclient]
    rcases api.Read (bigEndian64 epoch) c with ⟨r | v, c1⟩
    · simp only
    · simp only
  refine ⟨herr, by simp [bftkvStorage.Get, Storage.Get, hlocal], ?_, ?_⟩
  · simp [bftkvStorage.Get, Storage.Get, hstore, GoMap.get_set_self]
  · simp [bftkvStorage.LatestEpoch, Storage.LatestEpoch, hstore]

theorem bftkvStorage_Set_error_keeps_local_write_witness :
    (bftkvStorage.Set exampleBftkv exampleText
      { storage := Storage.New, client := some [(bigEndian64 66, [1])] }
      66 3 none (some exampleResponse) []).2 = some CoreStorage.ErrAlreadyStored ∧
    bftkvStorage.LatestEpoch
      ({ storage := Storage.New, client := some [(bigEndian64 66, [1])] } :
        bftkvStorage (List (Bytes × Bytes))) = 0 ∧
    bftkvStorage.Get
      ({ storage := Storage.New, client := some [(bigEndian64 66, [1])] } :
        bftkvStorage (List (Bytes × Bytes))) 66 = (none, some Storage.ErrNotFound) ∧
    bftkvStorage.Get
        (bftkvStorage.Set exampleBftkv exampleText
          { storage := Storage.New, client := some [(bigEndian64 66, [1])] }
          66 3 none (some exampleResponse) []).1 66 =
      (some { Smr := none, Seen := 3, Errors := [], Response := some exampleResponse },
        none) ∧
    bftkvStorage.LatestEpoch
        (bftkvStorage.Set exampleBftkv exampleText
          { storage := Storage.New, client := some [(bigEndian64 66, [1])] }
          66 3 none (some exampleResponse) []).1 = 66 :=
  have h := bftkvStorage_Set_error_keeps_local_write exampleBftkv exampleText
    { storage := Storage.New, client := some [(bigEndian64 66, [1])] } [(bigEndian64 66, [1])]
    66 3 none (some exampleResponse) [] rfl rfl
  ⟨h.1, rfl, h.2.1, h.2.2.1, h.2.2.2⟩

/-! ## Canonical keys -/

theorem toArray_length (b : Bytes) : (toArray b).length = 32 := by
  simp only [toArray, List.length_append, List.length_take, List.length_replicate]
  omega

theorem toArray_getElem? (b : Bytes) (i : Nat) (h : i < 32) :
    (toArray b)[i]? = some (b.getD i 0) := by
  unfold toArray
  by_cases hi : i < b.length
  · rw [List.getElem?_append_left (by simp; omega)]
    rw [List.getElem?_take_of_lt h]
    simp [List.getD_eq_getElem?_getD, List.getElem?_eq_getElem hi]
  · have hlen : (b.take 32).length = b.length := by simp; omega
    rw [List.getElem?_append_right (by omega)]
    rw [hlen, List.getElem?_replicate]
    have : i - b.length < 32 - b.length := by omega
    simp [this, List.getD_eq_getElem?_getD, List.getElem?_eq_none (Nat.le_of_not_lt hi)]

theorem toArray_append_zero (k : Bytes) (h : k.length < 32) :
    toArray (k ++ [0]) = toArray k := by
  unfold toArray
  have h1 : (k ++ [0]).take 32 = k ++ [0] := List.take_of_length_le (by simp; omega)
  have h2 : k.take 32 = k := List.take_of_length_le (by omega)
  have h3 : 32 - k.length = (32 - (k ++ [0]).length) + 1 := by simp; omega
  rw [h1, h2, h3, List.replicate_succ]
  simp

theorem toArray_append_of_length (p a : Bytes) (h : p.length = 32) :
    toArray (p ++ a) = p := by
  unfold toArray
  have h1 : (p ++ a).take 32 = p := by
    rw [← h]; simp
  rw [h1]
  simp [h]

theorem newLeaf?_of_acceptedWith {Entry : Type}
    (Mutate : Option Entry → Option SignedKV → Except Error Bytes)
    (FromLeafValue : Bytes → Except Error (Option Entry))
    (leaves : List MapLeaf) (m : Option SignedKV) (v : Bytes)
    (h : AcceptedWith Mutate FromLeafValue leaves m v) :
    newLeaf? Mutate FromLeafValue leaves m =
      some { Index := GetKey (GetKeyValue m), LeafHash := [], LeafValue := v,
             ExtraData := [] } := by
  obtain ⟨old, h1, h2⟩ := h
  unfold newLeaf?
  rw [h1]
  simp only [h2]

theorem applyMutations_same_canonical_key {Entry : Type}
    (Mutate : Option Entry → Option SignedKV → Except Error Bytes)
    (FromLeafValue : Bytes → Except Error (Option Entry))
    (leaves : List MapLeaf) (m1 m2 : Option SignedKV) (v1 v2 : Bytes)
    (hk : toArray (GetKey (GetKeyValue m1)) = toArray (GetKey (GetKeyValue m2)))
    (h1 : AcceptedWith Mutate FromLeafValue leaves m1 v1)
    (h2 : AcceptedWith Mutate FromLeafValue leaves m2 v2) :
    applyMutations Mutate FromLeafValue [m1, m2] (leaves.map some) =
      some ([{ Index := GetKey (GetKeyValue m2), LeafHash := [], LeafValue := v2,
               ExtraData := [] }], none) := by
  obtain ⟨lm, hl1, hl2⟩ := leafMapLoop_some leaves []
  have hlm : ∀ k, GoMap.get k lm = preBatchLeaf leaves k := by
    intro k; rw [hl2 k]; simp [GoMap.get]
  simp only [applyMutations, hl1, mutationLoop]
  rw [applyStep_eq Mutate FromLeafValue leaves lm hlm,
    applyStep_eq Mutate FromLeafValue leaves lm hlm,
    newLeaf?_of_acceptedWith Mutate FromLeafValue leaves m1 v1 h1,
    newLeaf?_of_acceptedWith Mutate FromLeafValue leaves m2 v2 h2]
  simp [GoMap.set, GoMap.values, hk]

/-- C13. `toArray` returns 32 bytes, byte `i` being byte `i` of the input, or
zero past its end. Hence a key shorter than 32 bytes and the same key followed
by a zero byte are distinct keys with the same canonical form, and so are two
keys that continue the same 32 bytes differently; and for every batch of two
mutations whose keys have the same canonical form, both accepted by `Mutate`,
`applyMutations` returns a single leaf, in every order of the map: the leaf of
the later mutation, with its key and its value. The update of the earlier key
is not in the output and no error is returned. -/
theorem toArray_merges_distinct_keys :
    (∀ b : Bytes, (toArray b).length = 32 ∧
      ∀ i, i < 32 → (toArray b)[i]? = some (b.getD i 0)) ∧
    (∀ k : Bytes, k.length < 32 → k ≠ k ++ [0] ∧ toArray k = toArray (k ++ [0])) ∧
    (∀ p a b : Bytes, p.length = 32 → a ≠ b →
      p ++ a ≠ p ++ b ∧ toArray (p ++ a) = toArray (p ++ b)) ∧
    (∀ (Entry : Type) (Mutate : Option Entry → Option SignedKV → Except Error Bytes)
      (FromLeafValue : Bytes → Except Error (Option Entry)) (leaves : List MapLeaf)
      (m1 m2 : Option SignedKV) (v1 v2 : Bytes),
      toArray (GetKey (GetKeyValue m1)) = toArray (GetKey (GetKeyValue m2)) →
      AcceptedWith Mutate FromLeafValue leaves m1 v1 →
      AcceptedWith Mutate FromLeafValue leaves m2 v2 →
      ∃ out, applyMutations Mutate FromLeafValue [m1, m2] (leaves.map some) =
          some (out, none) ∧
        ∀ ret : List MapLeaf, ret.Perm out →
          ret = [{ Index := GetKey (GetKeyValue m2), LeafHash := [], LeafValue := v2,
                   ExtraData := [] }]) := by
  refine ⟨fun b => ⟨toArray_length b, toArray_getElem? b⟩, ?_, ?_, ?_⟩
  · intro k hk
    refine ⟨fun h => ?_, (toArray_append_zero k hk).symm⟩
    have := congrArg List.length h
    simp at this
  · intro p a b hp hab
    refine ⟨fun h => hab (List.append_cancel_left h), ?_⟩
    rw [toArray_append_of_length p a hp, toArray_append_of_length p b hp]
  · intro Entry Mutate FromLeafValue leaves m1 m2 v1 v2 hk h1 h2
    refine ⟨_, applyMutations_same_canonical_key Mutate FromLeafValue leaves m1 m2 v1 v2
      hk h1 h2, ?_⟩
    intro ret hret
    exact List.perm_singleton.mp hret

theorem toArray_merges_distinct_keys_witness :
    ([65] : Bytes) ≠ [65, 0] ∧ toArray [65] = toArray [65, 0] ∧
    applyMutations exampleMutate exampleFromLeafValue
        [exampleMutation [65] [1], exampleMutation [65, 0] [2]] [] =
      some ([{ Index := [65, 0], LeafHash := [], LeafValue := [2], ExtraData := [] }], none) ∧
    ∃ out, applyMutations exampleMutate exampleFromLeafValue
        [exampleMutation [65] [1], exampleMutation [65, 0] [2]]
        (([] : List MapLeaf).map some) = some (out, none) ∧
      ∀ ret : List MapLeaf, ret.Perm out →
        ret = [{ Index := [65, 0], LeafHash := [], LeafValue := [2], ExtraData := [] }] :=
  ⟨by decide, by decide, by decide,
    toArray_merges_distinct_keys.2.2.2 Bytes exampleMutate exampleFromLeafValue []
      (exampleMutation [65] [1]) (exampleMutation [65, 0] [2]) [1] [2] (by decide)
      ⟨none, rfl, rfl⟩ ⟨none, rfl, rfl⟩⟩

end KeyTransparency
